import Mathlib

/-!
# Verification of the chat server (`src/server.rs`)

This file gives a shallow embedding of the core of the chat relay server:

* `parse_join_command` — the join-command parser (`Server::parse_join_command`,
  `src/server.rs` lines 118–134), modelled as a pure function on `String`.
  Rust's `str::split(' ')` is modelled by the structural function `splitSpace`
  on the underlying character list, `str::len` (UTF-8 byte count) by `utf8Len`,
  and `char::is_whitespace` (the Unicode `White_Space` property) by
  `rustIsWhitespace`.
* a small-step transition system for `Server::handle_client`
  (`src/server.rs` lines 140–256) interacting with the shared channel registry
  (`ConcurrentMap<String, (Vec<String>, broadcast::Sender<String>)>`), with the
  tokio broadcast channel modelled by an append-only message log plus live
  receiver/sender handle counts, and each `.await`/lock boundary of the Rust
  code a separate atomic action so that handler steps of different connections
  interleave arbitrarily.

Theorems `C1_…`–`C10_…` settle the corresponding specification claims.
-/

namespace Chat

/-! ## The join-command parser (`Server::parse_join_command`) -/

/-- Rust's `char::is_whitespace`: the Unicode `White_Space` property. -/
def rustIsWhitespace (c : Char) : Bool :=
  let n := c.toNat
  n == 0x09 || n == 0x0A || n == 0x0B || n == 0x0C || n == 0x0D || n == 0x20 ||
  n == 0x85 || n == 0xA0 || n == 0x1680 ||
  (decide (0x2000 ≤ n) && decide (n ≤ 0x200A)) ||
  n == 0x2028 || n == 0x2029 || n == 0x202F || n == 0x205F || n == 0x3000

/-- Rust's `str::len`: the length of the UTF-8 encoding, in bytes. -/
def utf8Len : List Char → Nat
  | [] => 0
  | c :: cs => c.utf8Size + utf8Len cs

/-- Rust's `str::split(' ')` on the character list of a string: maximal runs
between occurrences of `' '`; adjacent, leading and trailing separators
produce empty terms, and the split of the empty string is `[""]`. -/
def splitSpace : List Char → List (List Char)
  | [] => [[]]
  | c :: cs =>
    match splitSpace cs with
    | [] => [[]]
    | t :: ts => if c = ' ' then [] :: t :: ts else (c :: t) :: ts

/-- The filtering pass of `Server::parse_join_command` (`src/server.rs`
lines 121–122): drop every term whose UTF-8 byte length (`str::len`) exceeds
20, then drop every term containing a whitespace character. -/
def filterPass (terms : List (List Char)) : List (List Char) :=
  (terms.filter fun term => decide (utf8Len term ≤ 20)).filter
    fun term => !term.any rustIsWhitespace

/-- The sequence of surviving terms: the line split on `' '`
(`src/server.rs` line 120) run through the filtering pass, packed back
into `String`s. -/
def survivingTerms (join_cmd : String) : List String :=
  (filterPass (splitSpace join_cmd.data)).map fun term => String.mk term

/-- `Server::parse_join_command` (`src/server.rs` lines 118–134): after the
filtering pass, the first surviving term must be `"JOIN"`, the second is the
channel name, the third the user name, and a fourth (`_canary`) makes the
command invalid. -/
def parse_join_command (join_cmd : String) : Option (String × String) :=
  match survivingTerms join_cmd with
  | header :: rest =>
    if header = "JOIN" then
      match rest with
      | chan_name :: rest1 =>
        match rest1 with
        | user_name :: canary =>
          match canary with
          | [] => some (chan_name, user_name)
          | _ :: _ => none
        | [] => none
      | [] => none
    else none
  | [] => none

/-- Validity of a name as the claims state it for names kept by the filter:
UTF-8 byte length at most 20 and no whitespace character. -/
def nameOk (x : String) : Prop :=
  utf8Len x.data ≤ 20 ∧ x.data.any rustIsWhitespace = false

instance (x : String) : Decidable (nameOk x) := by
  unfold nameOk; infer_instance

theorem parse_eq_some_iff (line c u : String) :
    parse_join_command line = some (c, u) ↔ survivingTerms line = ["JOIN", c, u] := by
  unfold parse_join_command
  cases h : survivingTerms line with
  | nil => simp
  | cons hd tl =>
    by_cases hhd : hd = "JOIN"
    · subst hhd
      cases tl with
      | nil => simp
      | cons a tl2 =>
        cases tl2 with
        | nil => simp
        | cons b tl3 =>
          cases tl3 with
          | nil => simp
          | cons d tl4 => simp
    · simp only [List.cons.injEq, if_neg hhd]
      constructor
      · intro hcontra; exact absurd hcontra (by simp)
      · intro heq; exact absurd heq.1 hhd

theorem mem_survivingTerms (line t : String) (ht : t ∈ survivingTerms line) :
    utf8Len t.data ≤ 20 ∧ t.data.any rustIsWhitespace = false := by
  unfold survivingTerms filterPass at ht
  obtain ⟨l, hl, rfl⟩ := List.mem_map.mp ht
  have h2 := List.mem_filter.mp hl
  have h1 := List.mem_filter.mp h2.1
  refine ⟨by simpa using h1.2, ?_⟩
  have := h2.2
  simpa using this

theorem length_le_utf8Len (l : List Char) : l.length ≤ utf8Len l := by
  induction l with
  | nil => simp [utf8Len]
  | cons c cs ih =>
    have hc : 1 ≤ c.utf8Size := c.utf8Size_pos
    simp only [utf8Len, List.length_cons]
    omega

/-- **C1.** `parse_join_command` succeeds iff, after the filtering pass,
exactly three terms survive and the first is the literal, case-sensitive
token `JOIN`; on success it returns the second surviving term as the channel
name and the third as the user name, failing whenever fewer than three terms
survive or a fourth exists. -/
theorem C1_parse_join_iff (line c u : String) :
    (parse_join_command line = some (c, u) ↔ survivingTerms line = ["JOIN", c, u])
    ∧ ((parse_join_command line).isSome ↔
        (survivingTerms line).length = 3 ∧ (survivingTerms line).head? = some "JOIN") := by
  refine ⟨parse_eq_some_iff line c u, ?_, ?_⟩
  · intro h
    obtain ⟨⟨a, b⟩, hp⟩ := Option.isSome_iff_exists.mp h
    have := (parse_eq_some_iff line a b).mp hp
    rw [this]
    simp
  · rintro ⟨hlen, hhead⟩
    cases hs : survivingTerms line with
    | nil => rw [hs] at hlen; simp at hlen
    | cons hd tl =>
      rw [hs] at hlen hhead
      simp only [List.head?_cons, Option.some.injEq] at hhead
      subst hhead
      have htl : tl.length = 2 := by simpa using hlen
      obtain ⟨a, b, rfl⟩ := List.length_eq_two.mp htl
      have := (parse_eq_some_iff line a b).mpr hs
      rw [this]
      rfl

/-- **C2, counterexample.** The claim says a term is discarded iff it is
longer than 20 *characters* or contains whitespace.  The code tests
`term.len()`, the UTF-8 *byte* length.  The term `ééééééééééé` has 11
characters (≤ 20) and no whitespace, yet it is discarded (22 bytes), so the
surviving sequence of `JOIN ééééééééééé a b` is `[JOIN, a, b]` and the parse
succeeds with shifted terms — under the claim's filter the term would
survive, four terms would remain, and the parse would fail. -/
theorem C2_counterexample :
    ("ééééééééééé".data.length ≤ 20 ∧ "ééééééééééé".data.any rustIsWhitespace = false)
    ∧ survivingTerms "JOIN ééééééééééé a b" = ["JOIN", "a", "b"]
    ∧ parse_join_command "JOIN ééééééééééé a b" = some ("a", "b") := by
  decide

/-- **C2, amended.** In the filtering pass a term is discarded iff its UTF-8
*byte* length exceeds 20 or it contains a whitespace character; discarded
terms are removed from the positional sequence before the positional rules
apply, so an input whose second space-separated token is discarded still
parses, with later tokens shifted into the channel- and user-name
positions. -/
theorem C2_filter_discards_by_bytes :
    (∀ (terms : List (List Char)) (t : List Char),
      t ∈ filterPass terms ↔
        t ∈ terms ∧ utf8Len t ≤ 20 ∧ t.any rustIsWhitespace = false)
    ∧ (∀ (pre post : List (List Char)) (t : List Char),
        20 < utf8Len t ∨ t.any rustIsWhitespace = true →
        filterPass (pre ++ t :: post) = filterPass (pre ++ post))
    ∧ parse_join_command "JOIN aaaaaaaaaaaaaaaaaaaaa chan user" = some ("chan", "user") := by
  refine ⟨?_, ?_, by decide⟩
  · intro terms t
    unfold filterPass
    simp only [List.mem_filter, Bool.not_eq_true', decide_eq_true_eq]
    tauto
  · intro pre post t ht
    unfold filterPass
    rcases ht with ht | ht
    · have : (decide (utf8Len t ≤ 20)) = false := by simpa using ht
      simp [List.filter_append, this]
    · by_cases hlen : utf8Len t ≤ 20
      · simp [List.filter_append, hlen, ht]
      · have : (decide (utf8Len t ≤ 20)) = false := by simpa using hlen
        simp [List.filter_append, this]

/-- **C2, amended: witness.** Dropping the 22-byte term `ééééééééééé`
from the head of a term sequence leaves the filtering pass unchanged. -/
theorem C2_filter_discards_by_bytes_witness :
    filterPass ([] ++ "ééééééééééé".data :: [['a']]) = filterPass ([] ++ [['a']]) :=
  C2_filter_discards_by_bytes.2.1 [] [['a']] "ééééééééééé".data (Or.inl (by decide))

/-- **C3, counterexample.** Splitting `JOIN  a` (two spaces) on `' '` yields
the empty term between the separators; the empty term survives the filter
(0 bytes, no whitespace), so the parse succeeds and returns the *empty
string* as the channel name, refuting the claim that every parsed channel
name is non-empty. -/
theorem C3_counterexample : parse_join_command "JOIN  a" = some ("", "a") := by
  decide

/-! ## Transition system for `Server::handle_client`

One tokio `broadcast` channel is modelled as an append-only message log plus
counts of its live receiver handles (`Receiver`, i.e. subscriptions) and live
sender handles (`Sender` clones: one held by the registry entry, one by each
handler between `tx.clone()` and function exit).  A subscription is a cursor
`pos` into the log: `subscribe` starts at the current tail, `recv` yields
`log[pos]` while the backlog `log.length - pos` is within `MAX_MESSAGES`,
and reports lag (skipping to `log.length - MAX_MESSAGES`) once the backlog
exceeds it — the semantics of `tokio::sync::broadcast` used by the server.

The registry `Channels = ConcurrentMap<String, (Vec<String>, Tx)>` is an
association list from channel name to roster and group id.  Each atomic
action below corresponds to one step of `Server::handle_client`
(`src/server.rs` lines 140–256) between `.await`/lock boundaries, so steps
of different connection handlers interleave arbitrarily.  Transport effects
are environment events: incoming lines, read errors, stream end, and the
success or failure of each fallible write (`ok`); best-effort `ERROR` writes
(`.ok()`, lines 162 and 182) are recorded in the handler's `sent` trace and
never affect control flow, exactly as in the code. -/

/-- `Server::MAX_MESSAGES` (`src/server.rs` line 56). -/
def MAX_MESSAGES : Nat := 1000

/-- The variants of `ServerError` a single `handle_client` run can return
(`src/server.rs` lines 29–45, minus the listener-level errors). -/
inductive ServerErr where
  | noJoin
  | invalidJoin
  | broadcastMessage
  | sendMessage
  | userAlreadyInChannel
deriving Repr, DecidableEq

/-- State of one broadcast group (`tokio::sync::broadcast` channel). -/
structure GroupState where
  receivers : Nat
  senders : Nat
  log : List String
deriving Repr, DecidableEq

/-- One registry entry: the roster (`Vec<String>` of usernames) and the
group id of its broadcast channel. -/
structure ChannelEntry where
  users : List String
  gid : Nat
deriving Repr, DecidableEq

/-- The control point of one connection handler inside
`Server::handle_client`, together with the local variables live there. -/
inductive Phase where
  /-- Before `chat.next()` returns the join line (line 151). -/
  | awaitingJoin
  /-- Join line received and parsed to `(chan_name, user_name)` (line 159),
  before the registry critical section. -/
  | parsed (chan user : String)
  /-- Registry critical section done (lines 171–188): member added, holding
  the cloned `channel_tx` for group `gid`, before `subscribe` (line 192). -/
  | registered (chan user : String) (gid : Nat)
  /-- `channel_rx = channel_tx.subscribe()` done (line 192) with cursor
  `pos`, before sending the join announcement (line 196). -/
  | subscribed (chan user : String) (gid : Nat) (pos : Nat)
  /-- Inside the relay `loop` (lines 201–238). -/
  | joined (chan user : String) (gid : Nat) (pos : Nat)
  /-- `chat.next()` returned `None` and the loop was left (line 234),
  before publishing the departure announcement (line 243). -/
  | disconnected (chan user : String) (gid : Nat) (pos : Nat)
  /-- Departure announcement published (line 243), before
  `drop(channel_rx)` (line 247). -/
  | leftAnnounced (chan user : String) (gid : Nat) (pos : Nat)
  /-- `channel_rx` dropped (line 247), before reading
  `channel_tx.receiver_count()` (line 250). -/
  | droppedRx (chan user : String) (gid : Nat)
  /-- `receiver_count()` read as `cnt` (line 250), before the conditional
  registry removal (line 252) and return. -/
  | checkedCount (chan user : String) (gid : Nat) (cnt : Nat)
  /-- `handle_client` returned `Ok(())` (line 255). -/
  | closed
  /-- The `unreachable!()` branch fired (line 210). -/
  | panicked
  /-- `handle_client` returned `Err e`; `channel_rx`/`channel_tx` (if held)
  were dropped on the early return. -/
  | failed (e : ServerErr)
deriving Repr, DecidableEq

/-- One connection handler: its control point and the trace of lines the
server has written to this client's transport. -/
structure HandlerState where
  phase : Phase
  sent : List String
deriving Repr, DecidableEq

/-- The whole server: the shared registry, every broadcast group ever
created (indexed by group id; removed groups keep their slot with zero
handles), and one handler per accepted connection. -/
structure ServerState where
  registry : List (String × ChannelEntry)
  groups : List GroupState
  handlers : List HandlerState
deriving Repr, DecidableEq

/-- `HashMap` lookup on the association list (first match). -/
def lookupChan : List (String × ChannelEntry) → String → Option ChannelEntry
  | [], _ => none
  | e :: rest, name => if e.1 = name then some e.2 else lookupChan rest name

/-- `users.push(user_name)` on the entry of `name` (`src/server.rs`
line 185). -/
def addUser : List (String × ChannelEntry) → String → String → List (String × ChannelEntry)
  | [], _, _ => []
  | e :: rest, name, user =>
    if e.1 = name then (e.1, ⟨e.2.users ++ [user], e.2.gid⟩) :: rest
    else e :: addUser rest name user

/-- `HashMap::remove(name)` (`src/server.rs` line 252). -/
def removeChan : List (String × ChannelEntry) → String → List (String × ChannelEntry)
  | [], _ => []
  | e :: rest, name => if e.1 = name then rest else e :: removeChan rest name

/-- The atomic actions.  `tid` selects a handler; `line`, `ok` and the
choice of action are the environment (transport events, scheduling, write
outcomes). -/
inductive Action where
  /-- The first `chat.next()` yields `Some(Ok(line))`; the line is parsed
  (lines 151–165).  On parse failure a best-effort `ERROR` is sent and the
  handler fails with `InvalidJoin`. -/
  | deliverJoinLine (tid : Nat) (line : String)
  /-- The first `chat.next()` yields `None` or `Some(Err(_))`: the handler
  fails with `NoJoin` (line 154). -/
  | noJoinLine (tid : Nat)
  /-- The registry critical section (lines 171–188): get-or-create the
  channel, reject a taken username with a best-effort `ERROR`, else push
  the username and clone the sender. -/
  | registryJoin (tid : Nat)
  /-- `channel_tx.subscribe()` (line 192). -/
  | subscribe (tid : Nat)
  /-- Publish `"<user> has joined"` (lines 195–198). -/
  | announceJoin (tid : Nat)
  /-- `channel_rx.recv()` yields a message, forwarded to the transport
  (line 205); `ok` is the outcome of the `chat.send`. -/
  | recvForward (tid : Nat) (ok : Bool)
  /-- `channel_rx.recv()` yields `RecvError::Lagged` (lines 212–217);
  `ok` is the outcome of the `chat.send("ERROR")`. -/
  | recvLagged (tid : Nat) (ok : Bool)
  /-- `channel_rx.recv()` yields `RecvError::Closed` (lines 206–211):
  the `unreachable!()`. -/
  | recvClosed (tid : Nat)
  /-- `chat.next()` yields `Some(Ok(line))`: publish `"<user>: <line>"`
  (lines 222–226). -/
  | clientLine (tid : Nat) (line : String)
  /-- `chat.next()` yields `Some(Err(_))`: log and continue (lines 228–230). -/
  | readError (tid : Nat)
  /-- `chat.next()` yields `None`: leave the loop (lines 232–235). -/
  | streamEnd (tid : Nat)
  /-- Publish `"<user> has left"` (lines 242–245). -/
  | publishLeft (tid : Nat)
  /-- `drop(channel_rx)` (line 247). -/
  | dropRx (tid : Nat)
  /-- Read `channel_tx.receiver_count()` (line 250). -/
  | checkCount (tid : Nat)
  /-- Conditionally remove the channel and return (lines 250–255); the
  handler's `channel_tx` (and, on removal, the registry entry's `Tx`) is
  dropped. -/
  | finish (tid : Nat)
deriving Repr, DecidableEq

/-- One atomic step.  `none` means the action is not enabled in `s`
(wrong control point, no such handler, or the selected transport/group
event cannot occur there). -/
def step (s : ServerState) (a : Action) : Option ServerState :=
  match a with
  | .deliverJoinLine tid line =>
    match s.handlers[tid]? with
    | some h =>
      match h.phase with
      | .awaitingJoin =>
        match parse_join_command line with
        | some (chan, user) =>
          some { s with handlers := s.handlers.set tid { h with phase := .parsed chan user } }
        | none =>
          some { s with handlers :=
            s.handlers.set tid { phase := .failed .invalidJoin, sent := h.sent ++ ["ERROR"] } }
      | _ => none
    | none => none
  | .noJoinLine tid =>
    match s.handlers[tid]? with
    | some h =>
      match h.phase with
      | .awaitingJoin =>
        some { s with handlers := s.handlers.set tid { h with phase := .failed .noJoin } }
      | _ => none
    | none => none
  | .registryJoin tid =>
    match s.handlers[tid]? with
    | some h =>
      match h.phase with
      | .parsed chan user =>
        match lookupChan s.registry chan with
        | some e =>
          -- `entry(..).or_insert(..)` finds the existing entry.
          if user ∈ e.users then
            -- username taken: best-effort `ERROR` (line 182), fail, no mutation.
            some { registry := s.registry, groups := s.groups,
                   handlers :=
                     s.handlers.set tid
                       { phase := .failed .userAlreadyInChannel, sent := h.sent ++ ["ERROR"] } }
          else
            -- `users.push(user_name)` and `tx.clone()`.
            match s.groups[e.gid]? with
            | some gr =>
              some { registry := addUser s.registry chan user,
                     groups := s.groups.set e.gid { gr with senders := gr.senders + 1 },
                     handlers :=
                       s.handlers.set tid { h with phase := .registered chan user e.gid } }
            | none => none
        | none =>
          -- `or_insert` creates the entry with an empty roster and a fresh
          -- group `broadcast::channel(MAX_MESSAGES)` whose initial `Receiver`
          -- is dropped by `.0`, so it starts with 0 receivers and 1 sender
          -- (the entry's); `users.contains(&user_name)` on the empty roster
          -- is false, so `users.push(user_name)` and `tx.clone()` always
          -- follow: net effect roster `[user]` and 2 senders.
          some { registry := (chan, ⟨[user], s.groups.length⟩) :: s.registry,
                 groups := s.groups ++ [⟨0, 2, []⟩],
                 handlers :=
                   s.handlers.set tid { h with phase := .registered chan user s.groups.length } }
      | _ => none
    | none => none
  | .subscribe tid =>
    match s.handlers[tid]? with
    | some h =>
      match h.phase with
      | .registered chan user g =>
        match s.groups[g]? with
        | some gr =>
          some { s with
            groups := s.groups.set g { gr with receivers := gr.receivers + 1 },
            handlers :=
              s.handlers.set tid { h with phase := .subscribed chan user g gr.log.length } }
        | none => none
      | _ => none
    | none => none
  | .announceJoin tid =>
    match s.handlers[tid]? with
    | some h =>
      match h.phase with
      | .subscribed chan user g pos =>
        match s.groups[g]? with
        | some gr =>
          if gr.receivers = 0 then
            -- `send` fails with no receiver: `?` returns `BroadcastMessage`,
            -- dropping `channel_rx` and `channel_tx`.
            some { s with
              groups :=
                s.groups.set g { gr with receivers := gr.receivers - 1, senders := gr.senders - 1 },
              handlers := s.handlers.set tid { h with phase := .failed .broadcastMessage } }
          else
            some { s with
              groups := s.groups.set g { gr with log := gr.log ++ [user ++ " has joined"] },
              handlers := s.handlers.set tid { h with phase := .joined chan user g pos } }
        | none => none
      | _ => none
    | none => none
  | .recvForward tid ok =>
    match s.handlers[tid]? with
    | some h =>
      match h.phase with
      | .joined chan user g pos =>
        match s.groups[g]? with
        | some gr =>
          match gr.log[pos]? with
          | some msg =>
            if gr.log.length - pos ≤ MAX_MESSAGES then
              if ok then
                some { s with handlers :=
                  s.handlers.set tid { phase := .joined chan user g (pos + 1), sent := h.sent ++ [msg] } }
              else
                some { s with
                  groups :=
                    s.groups.set g { gr with receivers := gr.receivers - 1, senders := gr.senders - 1 },
                  handlers := s.handlers.set tid { h with phase := .failed .sendMessage } }
            else none
          | none => none
        | none => none
      | _ => none
    | none => none
  | .recvLagged tid ok =>
    match s.handlers[tid]? with
    | some h =>
      match h.phase with
      | .joined chan user g pos =>
        match s.groups[g]? with
        | some gr =>
          if MAX_MESSAGES < gr.log.length - pos then
            if ok then
              let h1 : HandlerState :=
                { phase := .joined chan user g (gr.log.length - MAX_MESSAGES),
                  sent := h.sent ++ ["ERROR"] }
              some { s with handlers := s.handlers.set tid h1 }
            else
              some { s with
                groups :=
                  s.groups.set g { gr with receivers := gr.receivers - 1, senders := gr.senders - 1 },
                handlers := s.handlers.set tid { h with phase := .failed .sendMessage } }
          else none
        | none => none
      | _ => none
    | none => none
  | .recvClosed tid =>
    match s.handlers[tid]? with
    | some h =>
      match h.phase with
      | .joined _ _ g _ =>
        match s.groups[g]? with
        | some gr =>
          if gr.senders = 0 then
            some { s with
              groups :=
                s.groups.set g { gr with receivers := gr.receivers - 1 },
              handlers := s.handlers.set tid { h with phase := .panicked } }
          else none
        | none => none
      | _ => none
    | none => none
  | .clientLine tid line =>
    match s.handlers[tid]? with
    | some h =>
      match h.phase with
      | .joined _ user g _ =>
        match s.groups[g]? with
        | some gr =>
          if gr.receivers = 0 then
            some { s with
              groups :=
                s.groups.set g { gr with receivers := gr.receivers - 1, senders := gr.senders - 1 },
              handlers := s.handlers.set tid { h with phase := .failed .broadcastMessage } }
          else
            some { s with
              groups := s.groups.set g { gr with log := gr.log ++ [user ++ ": " ++ line] } }
        | none => none
      | _ => none
    | none => none
  | .readError tid =>
    match s.handlers[tid]? with
    | some h =>
      match h.phase with
      | .joined _ _ _ _ => some s
      | _ => none
    | none => none
  | .streamEnd tid =>
    match s.handlers[tid]? with
    | some h =>
      match h.phase with
      | .joined chan user g pos =>
        some { s with handlers :=
          s.handlers.set tid { h with phase := .disconnected chan user g pos } }
      | _ => none
    | none => none
  | .publishLeft tid =>
    match s.handlers[tid]? with
    | some h =>
      match h.phase with
      | .disconnected chan user g pos =>
        match s.groups[g]? with
        | some gr =>
          if gr.receivers = 0 then
            some { s with
              groups :=
                s.groups.set g { gr with receivers := gr.receivers - 1, senders := gr.senders - 1 },
              handlers := s.handlers.set tid { h with phase := .failed .broadcastMessage } }
          else
            some { s with
              groups := s.groups.set g { gr with log := gr.log ++ [user ++ " has left"] },
              handlers := s.handlers.set tid { h with phase := .leftAnnounced chan user g pos } }
        | none => none
      | _ => none
    | none => none
  | .dropRx tid =>
    match s.handlers[tid]? with
    | some h =>
      match h.phase with
      | .leftAnnounced chan user g _ =>
        match s.groups[g]? with
        | some gr =>
          some { s with
            groups := s.groups.set g { gr with receivers := gr.receivers - 1 },
            handlers := s.handlers.set tid { h with phase := .droppedRx chan user g } }
        | none => none
      | _ => none
    | none => none
  | .checkCount tid =>
    match s.handlers[tid]? with
    | some h =>
      match h.phase with
      | .droppedRx chan user g =>
        match s.groups[g]? with
        | some gr =>
          some { s with handlers :=
            s.handlers.set tid { h with phase := .checkedCount chan user g gr.receivers } }
        | none => none
      | _ => none
    | none => none
  | .finish tid =>
    match s.handlers[tid]? with
    | some h =>
      match h.phase with
      | .checkedCount chan _ g cnt =>
        match s.groups[g]? with
        | some gr =>
          if cnt = 0 then
            match lookupChan s.registry chan with
            | some e =>
              match s.groups[e.gid]? with
              | some ge =>
                if e.gid = g then
                  -- removing the entry drops its `Tx`, and the handler's
                  -- own `channel_tx` is dropped on return: same group.
                  some { registry := removeChan s.registry chan,
                         groups := s.groups.set g { gr with senders := gr.senders - 2 },
                         handlers := s.handlers.set tid { h with phase := .closed } }
                else
                  -- the name was removed and recreated meanwhile: the entry
                  -- removed by name belongs to a different group.
                  some { registry := removeChan s.registry chan,
                         groups := (s.groups.set g { gr with senders := gr.senders - 1 }).set
                             e.gid { ge with senders := ge.senders - 1 },
                         handlers := s.handlers.set tid { h with phase := .closed } }
              | none => none
            | none =>
              some { registry := s.registry,
                     groups := s.groups.set g { gr with senders := gr.senders - 1 },
                     handlers := s.handlers.set tid { h with phase := .closed } }
          else
            some { s with
              groups := s.groups.set g { gr with senders := gr.senders - 1 },
              handlers := s.handlers.set tid { h with phase := .closed } }
        | none => none
      | _ => none
    | none => none

/-- Run a schedule of actions. -/
def run (s : ServerState) : List Action → Option ServerState
  | [] => some s
  | a :: rest =>
    match step s a with
    | some s1 => run s1 rest
    | none => none

/-- The server right after start-up with `n` accepted connections: empty
registry, no groups, every handler awaiting its join line. -/
def initState (n : Nat) : ServerState :=
  ⟨[], [], List.replicate n ⟨.awaitingJoin, []⟩⟩

/-- A state is reachable if some schedule of atomic actions produces it
from a start state. -/
def Reachable (s : ServerState) : Prop :=
  ∃ n acts, run (initState n) acts = some s

/-! ## Handle and registry accounting

`countRx`/`countTx` count the live `Receiver`/`Sender` handles held by
connection handlers on a given group, `countReg` the `Sender` handles held
by registry entries.  The central invariant `Inv` bounds a group's recorded
handle counts from below by these, which is what makes the `send` calls and
the `RecvError::Closed` branch analysable. -/

/-- The group whose `Receiver` (subscription) the handler at this control
point holds, if any: from `subscribe` (line 192) to `drop(channel_rx)`
(line 247). -/
def holdsRx : Phase → Option Nat
  | .subscribed _ _ g _ => some g
  | .joined _ _ g _ => some g
  | .disconnected _ _ g _ => some g
  | .leftAnnounced _ _ g _ => some g
  | _ => none

/-- The group whose cloned `Sender` the handler at this control point
holds, if any: from `tx.clone()` (line 186) to function exit. -/
def holdsTx : Phase → Option Nat
  | .registered _ _ g => some g
  | .subscribed _ _ g _ => some g
  | .joined _ _ g _ => some g
  | .disconnected _ _ g _ => some g
  | .leftAnnounced _ _ g _ => some g
  | .droppedRx _ _ g => some g
  | .checkedCount _ _ g _ => some g
  | _ => none

theorem holdsTx_of_holdsRx {p : Phase} {g : Nat} (h : holdsRx p = some g) :
    holdsTx p = some g := by
  cases p <;> simp_all [holdsRx, holdsTx]

/-- Number of handlers holding a subscription to group `g`. -/
def countRx (hs : List HandlerState) (g : Nat) : Nat :=
  hs.countP fun h => holdsRx h.phase == some g

/-- Number of handlers holding a cloned sender of group `g`. -/
def countTx (hs : List HandlerState) (g : Nat) : Nat :=
  hs.countP fun h => holdsTx h.phase == some g

/-- Number of registry entries holding the sender of group `g`. -/
def countReg (reg : List (String × ChannelEntry)) (g : Nat) : Nat :=
  reg.countP fun e => e.2.gid == g

theorem getElem?_set_same {α : Type} (l : List α) (i : Nat) (a b : α)
    (hb : l[i]? = some b) : (l.set i a)[i]? = some a := by
  rw [List.getElem?_set_self', hb]; rfl

theorem countP_set_add {α : Type} (p : α → Bool) (l : List α) (i : Nat) (a b : α)
    (hb : l[i]? = some b) :
    (l.set i a).countP p + (if p b then 1 else 0) = l.countP p + (if p a then 1 else 0) := by
  induction l generalizing i with
  | nil => cases hb
  | cons x xs ih =>
    cases i with
    | zero =>
      simp only [List.getElem?_cons_zero, Option.some.injEq] at hb
      subst hb
      simp only [List.set_cons_zero, List.countP_cons]
      omega
    | succ n =>
      simp only [List.getElem?_cons_succ] at hb
      simp only [List.set_cons_succ, List.countP_cons]
      have := ih n hb
      omega

theorem countP_one_le {α : Type} (p : α → Bool) (l : List α) (i : Nat) (b : α)
    (hb : l[i]? = some b) (hpb : p b = true) : 1 ≤ l.countP p := by
  have hmem : b ∈ l := List.getElem?_mem hb
  have := List.countP_pos_iff.mpr ⟨b, hmem, hpb⟩
  omega

theorem countRx_set (hs : List HandlerState) (tid : Nat) (a b : HandlerState)
    (hb : hs[tid]? = some b) (g : Nat) :
    countRx (hs.set tid a) g + (if holdsRx b.phase = some g then 1 else 0)
      = countRx hs g + (if holdsRx a.phase = some g then 1 else 0) := by
  have := countP_set_add (fun h => holdsRx h.phase == some g) hs tid a b hb
  simpa [countRx, beq_iff_eq] using this

theorem countTx_set (hs : List HandlerState) (tid : Nat) (a b : HandlerState)
    (hb : hs[tid]? = some b) (g : Nat) :
    countTx (hs.set tid a) g + (if holdsTx b.phase = some g then 1 else 0)
      = countTx hs g + (if holdsTx a.phase = some g then 1 else 0) := by
  have := countP_set_add (fun h => holdsTx h.phase == some g) hs tid a b hb
  simpa [countTx, beq_iff_eq] using this

theorem countRx_one_le (hs : List HandlerState) (tid : Nat) (b : HandlerState) (g : Nat)
    (hb : hs[tid]? = some b) (hrx : holdsRx b.phase = some g) : 1 ≤ countRx hs g :=
  countP_one_le _ hs tid b hb (by simp [hrx])

theorem countTx_one_le (hs : List HandlerState) (tid : Nat) (b : HandlerState) (g : Nat)
    (hb : hs[tid]? = some b) (htx : holdsTx b.phase = some g) : 1 ≤ countTx hs g :=
  countP_one_le _ hs tid b hb (by simp [htx])

theorem lookupChan_mem {reg : List (String × ChannelEntry)} {c : String} {e : ChannelEntry}
    (h : lookupChan reg c = some e) : (c, e) ∈ reg := by
  induction reg with
  | nil => cases h
  | cons x rest ih =>
    unfold lookupChan at h
    by_cases hx : x.1 = c
    · rw [if_pos hx] at h
      have hxe : x.2 = e := Option.some.inj h
      have : x = (c, e) := by cases x; simp_all
      rw [← this]; exact List.mem_cons_self x rest
    · rw [if_neg hx] at h
      exact List.mem_cons_of_mem x (ih h)

theorem countReg_one_le (reg : List (String × ChannelEntry)) (c : String) (e : ChannelEntry)
    (h : lookupChan reg c = some e) : 1 ≤ countReg reg e.gid := by
  have hmem := lookupChan_mem h
  unfold countReg
  have : 0 < List.countP (fun x => x.2.gid == e.gid) reg :=
    List.countP_pos_iff.mpr ⟨(c, e), hmem, beq_self_eq_true e.gid⟩
  omega

theorem countReg_addUser (reg : List (String × ChannelEntry)) (c u : String) (g : Nat) :
    countReg (addUser reg c u) g = countReg reg g := by
  induction reg with
  | nil => rfl
  | cons x rest ih =>
    by_cases hx : x.1 = c
    · simp [addUser, countReg, hx, List.countP_cons]
    · have h1 : addUser (x :: rest) c u = x :: addUser rest c u := by
        simp [addUser, hx]
      rw [h1]
      unfold countReg at *
      rw [List.countP_cons, List.countP_cons, ih]

theorem countReg_removeChan (reg : List (String × ChannelEntry)) (c : String)
    (e : ChannelEntry) (h : lookupChan reg c = some e) (g : Nat) :
    countReg (removeChan reg c) g + (if e.gid = g then 1 else 0) = countReg reg g := by
  induction reg with
  | nil => cases h
  | cons x rest ih =>
    unfold lookupChan at h
    by_cases hx : x.1 = c
    · rw [if_pos hx] at h
      have hxe : x.2 = e := Option.some.inj h
      have h1 : removeChan (x :: rest) c = rest := by simp [removeChan, hx]
      rw [h1]
      unfold countReg
      rw [List.countP_cons]
      simp [hxe, beq_iff_eq]
    · rw [if_neg hx] at h
      have h1 : removeChan (x :: rest) c = x :: removeChan rest c := by
        simp [removeChan, hx]
      rw [h1]
      unfold countReg at *
      rw [List.countP_cons, List.countP_cons]
      have := ih h
      omega

theorem removeChan_of_lookup_none (reg : List (String × ChannelEntry)) (c : String)
    (h : lookupChan reg c = none) : removeChan reg c = reg := by
  induction reg with
  | nil => rfl
  | cons x rest ih =>
    unfold lookupChan at h
    by_cases hx : x.1 = c
    · rw [if_pos hx] at h; cases h
    · rw [if_neg hx] at h
      have h1 : removeChan (x :: rest) c = x :: removeChan rest c := by
        simp [removeChan, hx]
      rw [h1, ih h]

theorem mem_removeChan {p : String × ChannelEntry} {reg : List (String × ChannelEntry)}
    {c : String} (h : p ∈ removeChan reg c) : p ∈ reg := by
  induction reg with
  | nil => cases h
  | cons x rest ih =>
    unfold removeChan at h
    by_cases hx : x.1 = c
    · rw [if_pos hx] at h
      exact List.mem_cons_of_mem x h
    · rw [if_neg hx] at h
      rcases List.mem_cons.mp h with h1 | h1
      · rw [h1]; exact List.mem_cons_self x rest
      · exact List.mem_cons_of_mem x (ih h1)

theorem mem_addUser {p : String × ChannelEntry} {reg : List (String × ChannelEntry)}
    {c u : String} (h : p ∈ addUser reg c u) :
    p ∈ reg ∨ ∃ e : ChannelEntry, (c, e) ∈ reg ∧ p = (c, ⟨e.users ++ [u], e.gid⟩) := by
  induction reg with
  | nil => cases h
  | cons x rest ih =>
    unfold addUser at h
    by_cases hx : x.1 = c
    · rw [if_pos hx] at h
      rcases List.mem_cons.mp h with h1 | h1
      · right
        refine ⟨x.2, ?_, by rw [h1, hx]⟩
        rw [← hx]
        exact List.mem_cons_self x rest
      · left; exact List.mem_cons_of_mem x h1
    · rw [if_neg hx] at h
      rcases List.mem_cons.mp h with h1 | h1
      · left; rw [h1]; exact List.mem_cons_self x rest
      · rcases ih h1 with h2 | ⟨e, he, hp⟩
        · left; exact List.mem_cons_of_mem x h2
        · right; exact ⟨e, List.mem_cons_of_mem x he, hp⟩

theorem lookupChan_addUser_self (reg : List (String × ChannelEntry)) (c u : String)
    (e : ChannelEntry) (h : lookupChan reg c = some e) :
    lookupChan (addUser reg c u) c = some ⟨e.users ++ [u], e.gid⟩ := by
  induction reg with
  | nil => cases h
  | cons x rest ih =>
    unfold lookupChan at h
    by_cases hx : x.1 = c
    · rw [if_pos hx] at h
      have hxe : x.2 = e := Option.some.inj h
      unfold addUser lookupChan
      simp [hx, hxe]
    · rw [if_neg hx] at h
      unfold addUser lookupChan
      simp only [if_neg hx]
      exact ih h

/-- The handle-accounting invariant: every group's recorded receiver count
dominates the number of handler-held subscriptions on it, its sender count
dominates the handler-held clones plus the registry-entry handles, and every
group id stored in a handler or a registry entry indexes into `groups`. -/
def Inv (s : ServerState) : Prop :=
  (∀ g gr, s.groups[g]? = some gr →
      countRx s.handlers g ≤ gr.receivers ∧
      countTx s.handlers g + countReg s.registry g ≤ gr.senders)
  ∧ (∀ h ∈ s.handlers, ∀ g, holdsTx h.phase = some g → g < s.groups.length)
  ∧ (∀ e ∈ s.registry, e.2.gid < s.groups.length)

theorem inv_set_handler {s : ServerState} {tid : Nat} {a b : HandlerState}
    (hb : s.handlers[tid]? = some b)
    (hrx : holdsRx a.phase = holdsRx b.phase) (htx : holdsTx a.phase = holdsTx b.phase)
    (hinv : Inv s) :
    Inv { s with handlers := s.handlers.set tid a } := by
  obtain ⟨hcounts, hgid, hreg⟩ := hinv
  refine ⟨?_, ?_, hreg⟩
  · intro g gr hg
    dsimp only at hg ⊢
    have h1 := countRx_set s.handlers tid a b hb g
    have h2 := countTx_set s.handlers tid a b hb g
    have e1 : (if holdsRx a.phase = some g then 1 else 0)
        = (if holdsRx b.phase = some g then 1 else 0) := by rw [hrx]
    have e2 : (if holdsTx a.phase = some g then 1 else 0)
        = (if holdsTx b.phase = some g then 1 else 0) := by rw [htx]
    have h3 := hcounts g gr hg
    exact ⟨by omega, by omega⟩
  · intro h hmem g hg
    dsimp only at hmem ⊢
    rcases List.mem_or_eq_of_mem_set hmem with h1 | h1
    · exact hgid h h1 g hg
    · subst h1
      rw [htx] at hg
      exact hgid b (List.getElem?_mem hb) g hg

theorem inv_set_group_log {s : ServerState} {g : Nat} {gr : GroupState}
    (hg : s.groups[g]? = some gr) (log1 : List String) (hinv : Inv s) :
    Inv { s with groups := s.groups.set g { gr with log := log1 } } := by
  obtain ⟨hcounts, hgid, hreg⟩ := hinv
  refine ⟨?_, ?_, ?_⟩
  · intro g1 gr1 hg1
    dsimp only at hg1 ⊢
    by_cases hgg : g1 = g
    · subst hgg
      rw [getElem?_set_same _ _ _ _ hg] at hg1
      obtain rfl := Option.some.inj hg1
      exact hcounts g1 gr hg
    · rw [List.getElem?_set_ne (fun hc => hgg hc.symm)] at hg1
      exact hcounts g1 gr1 hg1
  · intro h hmem g1 hg1
    dsimp only at hmem ⊢
    have := hgid h hmem g1 hg1
    simpa using this
  · intro e hmem
    dsimp only at hmem ⊢
    have := hreg e hmem
    simpa using this

theorem inv_drop_both {s : ServerState} {tid : Nat} {a b : HandlerState} {g : Nat}
    {gr : GroupState}
    (hb : s.handlers[tid]? = some b) (hg : s.groups[g]? = some gr)
    (hbrx : holdsRx b.phase = some g) (harx : holdsRx a.phase = none)
    (hatx : holdsTx a.phase = none)
    (hinv : Inv s) :
    Inv { s with
      groups :=
        s.groups.set g { gr with receivers := gr.receivers - 1, senders := gr.senders - 1 },
      handlers := s.handlers.set tid a } := by
  obtain ⟨hcounts, hgid, hreg⟩ := hinv
  have hbtx : holdsTx b.phase = some g := holdsTx_of_holdsRx hbrx
  refine ⟨?_, ?_, ?_⟩
  · intro g1 gr1 hg1
    dsimp only at hg1 ⊢
    have h1 := countRx_set s.handlers tid a b hb g1
    have h2 := countTx_set s.handlers tid a b hb g1
    have e1 : (if holdsRx a.phase = some g1 then 1 else 0) = 0 := by rw [harx]; simp
    have e2 : (if holdsTx a.phase = some g1 then 1 else 0) = 0 := by rw [hatx]; simp
    by_cases hgg : g1 = g
    · subst hgg
      rw [getElem?_set_same _ _ _ _ hg] at hg1
      obtain rfl := Option.some.inj hg1
      dsimp only
      have h3 := hcounts g1 gr hg
      have h5 := countTx_one_le s.handlers tid b g1 hb hbtx
      have e3 : (if holdsRx b.phase = some g1 then 1 else 0) = 1 := by rw [hbrx]; simp
      have e4 : (if holdsTx b.phase = some g1 then 1 else 0) = 1 := by rw [hbtx]; simp
      exact ⟨by omega, by omega⟩
    · rw [List.getElem?_set_ne (fun hc => hgg hc.symm)] at hg1
      have h3 := hcounts g1 gr1 hg1
      have e3 : (if holdsRx b.phase = some g1 then 1 else 0) = 0 := by
        rw [hbrx]; simp; exact fun hc => hgg hc.symm
      have e4 : (if holdsTx b.phase = some g1 then 1 else 0) = 0 := by
        rw [hbtx]; simp; exact fun hc => hgg hc.symm
      exact ⟨by omega, by omega⟩
  · intro h hmem g1 hg1
    dsimp only at hmem ⊢
    rcases List.mem_or_eq_of_mem_set hmem with h1 | h1
    · have := hgid h h1 g1 hg1
      simpa using this
    · subst h1
      rw [hatx] at hg1
      cases hg1
  · intro e hmem
    dsimp only at hmem ⊢
    have := hreg e hmem
    simpa using this

theorem inv_drop_rx {s : ServerState} {tid : Nat} {a b : HandlerState} {g : Nat}
    {gr : GroupState}
    (hb : s.handlers[tid]? = some b) (hg : s.groups[g]? = some gr)
    (hbrx : holdsRx b.phase = some g) (harx : holdsRx a.phase = none)
    (hatx : holdsTx a.phase = holdsTx b.phase ∨ holdsTx a.phase = none)
    (hinv : Inv s) :
    Inv { s with
      groups := s.groups.set g { gr with receivers := gr.receivers - 1 },
      handlers := s.handlers.set tid a } := by
  obtain ⟨hcounts, hgid, hreg⟩ := hinv
  have hbtx : holdsTx b.phase = some g := holdsTx_of_holdsRx hbrx
  refine ⟨?_, ?_, ?_⟩
  · intro g1 gr1 hg1
    dsimp only at hg1 ⊢
    have h1 := countRx_set s.handlers tid a b hb g1
    have h2 := countTx_set s.handlers tid a b hb g1
    have e1 : (if holdsRx a.phase = some g1 then 1 else 0) = 0 := by rw [harx]; simp
    have e2 : (if holdsTx a.phase = some g1 then 1 else 0)
        ≤ (if holdsTx b.phase = some g1 then 1 else 0) := by
      rcases hatx with hatx | hatx
      · rw [hatx]
      · rw [hatx]; simp
    by_cases hgg : g1 = g
    · subst hgg
      rw [getElem?_set_same _ _ _ _ hg] at hg1
      obtain rfl := Option.some.inj hg1
      dsimp only
      have h3 := hcounts g1 gr hg
      have e3 : (if holdsRx b.phase = some g1 then 1 else 0) = 1 := by rw [hbrx]; simp
      exact ⟨by omega, by omega⟩
    · rw [List.getElem?_set_ne (fun hc => hgg hc.symm)] at hg1
      have h3 := hcounts g1 gr1 hg1
      have e3 : (if holdsRx b.phase = some g1 then 1 else 0) = 0 := by
        rw [hbrx]; simp; exact fun hc => hgg hc.symm
      exact ⟨by omega, by omega⟩
  · intro h hmem g1 hg1
    dsimp only at hmem ⊢
    rcases List.mem_or_eq_of_mem_set hmem with h1 | h1
    · have := hgid h h1 g1 hg1
      simpa using this
    · subst h1
      rcases hatx with hatx | hatx
      · rw [hatx] at hg1
        have := hgid b (List.getElem?_mem hb) g1 hg1
        simpa using this
      · rw [hatx] at hg1
        cases hg1
  · intro e hmem
    dsimp only at hmem ⊢
    have := hreg e hmem
    simpa using this

theorem inv_gain_rx {s : ServerState} {tid : Nat} {a b : HandlerState} {g : Nat}
    {gr : GroupState}
    (hb : s.handlers[tid]? = some b) (hg : s.groups[g]? = some gr)
    (hbrx : holdsRx b.phase = none) (harx : holdsRx a.phase = some g)
    (hatx : holdsTx a.phase = holdsTx b.phase)
    (hinv : Inv s) :
    Inv { s with
      groups := s.groups.set g { gr with receivers := gr.receivers + 1 },
      handlers := s.handlers.set tid a } := by
  obtain ⟨hcounts, hgid, hreg⟩ := hinv
  refine ⟨?_, ?_, ?_⟩
  · intro g1 gr1 hg1
    dsimp only at hg1 ⊢
    have h1 := countRx_set s.handlers tid a b hb g1
    have h2 := countTx_set s.handlers tid a b hb g1
    have e1 : (if holdsRx b.phase = some g1 then 1 else 0) = 0 := by rw [hbrx]; simp
    have e2 : (if holdsTx a.phase = some g1 then 1 else 0)
        = (if holdsTx b.phase = some g1 then 1 else 0) := by rw [hatx]
    by_cases hgg : g1 = g
    · subst hgg
      rw [getElem?_set_same _ _ _ _ hg] at hg1
      obtain rfl := Option.some.inj hg1
      dsimp only
      have h3 := hcounts g1 gr hg
      have e3 : (if holdsRx a.phase = some g1 then 1 else 0) = 1 := by rw [harx]; simp
      exact ⟨by omega, by omega⟩
    · rw [List.getElem?_set_ne (fun hc => hgg hc.symm)] at hg1
      have h3 := hcounts g1 gr1 hg1
      have e3 : (if holdsRx a.phase = some g1 then 1 else 0) = 0 := by
        rw [harx]; simp; exact fun hc => hgg hc.symm
      exact ⟨by omega, by omega⟩
  · intro h hmem g1 hg1
    dsimp only at hmem ⊢
    rcases List.mem_or_eq_of_mem_set hmem with h1 | h1
    · have := hgid h h1 g1 hg1
      simpa using this
    · subst h1
      rw [hatx] at hg1
      have := hgid b (List.getElem?_mem hb) g1 hg1
      simpa using this
  · intro e hmem
    dsimp only at hmem ⊢
    have := hreg e hmem
    simpa using this

theorem inv_drop_tx {s : ServerState} {tid : Nat} {a b : HandlerState} {g : Nat}
    {gr : GroupState}
    (hb : s.handlers[tid]? = some b) (hg : s.groups[g]? = some gr)
    (hbtx : holdsTx b.phase = some g) (hbrx : holdsRx b.phase = none)
    (harx : holdsRx a.phase = none) (hatx : holdsTx a.phase = none)
    (hinv : Inv s) :
    Inv { s with
      groups := s.groups.set g { gr with senders := gr.senders - 1 },
      handlers := s.handlers.set tid a } := by
  obtain ⟨hcounts, hgid, hreg⟩ := hinv
  refine ⟨?_, ?_, ?_⟩
  · intro g1 gr1 hg1
    dsimp only at hg1 ⊢
    have h1 := countRx_set s.handlers tid a b hb g1
    have h2 := countTx_set s.handlers tid a b hb g1
    have e1 : (if holdsRx a.phase = some g1 then 1 else 0) = 0 := by rw [harx]; simp
    have e2 : (if holdsTx a.phase = some g1 then 1 else 0) = 0 := by rw [hatx]; simp
    have e3 : (if holdsRx b.phase = some g1 then 1 else 0) = 0 := by rw [hbrx]; simp
    by_cases hgg : g1 = g
    · subst hgg
      rw [getElem?_set_same _ _ _ _ hg] at hg1
      obtain rfl := Option.some.inj hg1
      dsimp only
      have h3 := hcounts g1 gr hg
      have h5 := countTx_one_le s.handlers tid b g1 hb hbtx
      have e4 : (if holdsTx b.phase = some g1 then 1 else 0) = 1 := by rw [hbtx]; simp
      exact ⟨by omega, by omega⟩
    · rw [List.getElem?_set_ne (fun hc => hgg hc.symm)] at hg1
      have h3 := hcounts g1 gr1 hg1
      have e4 : (if holdsTx b.phase = some g1 then 1 else 0) = 0 := by
        rw [hbtx]; simp; exact fun hc => hgg hc.symm
      exact ⟨by omega, by omega⟩
  · intro h hmem g1 hg1
    dsimp only at hmem ⊢
    rcases List.mem_or_eq_of_mem_set hmem with h1 | h1
    · have := hgid h h1 g1 hg1
      simpa using this
    · subst h1
      rw [hatx] at hg1
      cases hg1
  · intro e hmem
    dsimp only at hmem ⊢
    have := hreg e hmem
    simpa using this

theorem countReg_cons (x : String × ChannelEntry) (reg : List (String × ChannelEntry))
    (g : Nat) :
    countReg (x :: reg) g = countReg reg g + (if x.2.gid = g then 1 else 0) := by
  unfold countReg
  rw [List.countP_cons]
  by_cases hx : x.2.gid = g
  · simp [hx]
  · simp [hx]

theorem countRx_eq_zero {hs : List HandlerState} {L : Nat}
    (hb : ∀ h ∈ hs, ∀ g, holdsTx h.phase = some g → g < L) : countRx hs L = 0 := by
  by_contra hne
  obtain ⟨x, hxmem, hxp⟩ := List.countP_pos_iff.mp (Nat.pos_of_ne_zero hne)
  have hx : holdsRx x.phase = some L := by simpa using hxp
  have := hb x hxmem L (holdsTx_of_holdsRx hx)
  omega

theorem countTx_eq_zero {hs : List HandlerState} {L : Nat}
    (hb : ∀ h ∈ hs, ∀ g, holdsTx h.phase = some g → g < L) : countTx hs L = 0 := by
  by_contra hne
  obtain ⟨x, hxmem, hxp⟩ := List.countP_pos_iff.mp (Nat.pos_of_ne_zero hne)
  have hx : holdsTx x.phase = some L := by simpa using hxp
  have := hb x hxmem L hx
  omega

theorem countReg_eq_zero {reg : List (String × ChannelEntry)} {L : Nat}
    (hb : ∀ e ∈ reg, e.2.gid < L) : countReg reg L = 0 := by
  by_contra hne
  obtain ⟨x, hxmem, hxp⟩ := List.countP_pos_iff.mp (Nat.pos_of_ne_zero hne)
  have hx : x.2.gid = L := by simpa using hxp
  have := hb x hxmem
  omega

/-- Every atomic step preserves the handle-accounting invariant. -/
theorem inv_step {s s' : ServerState} {a : Action} (hinv : Inv s)
    (hstep : step s a = some s') : Inv s' := by
  cases a with
  | deliverJoinLine tid line =>
    simp only [step] at hstep
    cases hh : s.handlers[tid]? with
    | none => rw [hh] at hstep; exact Option.noConfusion hstep
    | some h =>
      simp only [hh] at hstep
      cases hph : h.phase <;> simp only [hph] at hstep <;>
        try exact Option.noConfusion hstep
      cases hp : parse_join_command line with
      | some cu =>
        obtain ⟨chan, user⟩ := cu
        simp only [hp] at hstep
        obtain rfl := Option.some.inj hstep
        exact inv_set_handler hh (by simp [hph, holdsRx]) (by simp [hph, holdsTx]) hinv
      | none =>
        simp only [hp] at hstep
        obtain rfl := Option.some.inj hstep
        exact inv_set_handler hh (by simp [hph, holdsRx]) (by simp [hph, holdsTx]) hinv
  | noJoinLine tid =>
    simp only [step] at hstep
    cases hh : s.handlers[tid]? with
    | none => rw [hh] at hstep; exact Option.noConfusion hstep
    | some h =>
      simp only [hh] at hstep
      cases hph : h.phase <;> simp only [hph] at hstep <;>
        try exact Option.noConfusion hstep
      obtain rfl := Option.some.inj hstep
      exact inv_set_handler hh (by simp [hph, holdsRx]) (by simp [hph, holdsTx]) hinv
  | registryJoin tid =>
    simp only [step] at hstep
    cases hh : s.handlers[tid]? with
    | none => rw [hh] at hstep; exact Option.noConfusion hstep
    | some h =>
      simp only [hh] at hstep
      cases hph : h.phase <;> simp only [hph] at hstep <;>
        try exact Option.noConfusion hstep
      rename_i chan user
      cases hlk : lookupChan s.registry chan with
      | some e =>
        simp only [hlk] at hstep
        by_cases hu : user ∈ e.users
        · simp only [if_pos hu] at hstep
          obtain rfl := Option.some.inj hstep
          exact inv_set_handler hh (by simp [hph, holdsRx]) (by simp [hph, holdsTx]) hinv
        · simp only [if_neg hu] at hstep
          cases hgr : s.groups[e.gid]? with
          | none => rw [hgr] at hstep; exact Option.noConfusion hstep
          | some gr =>
            simp only [hgr] at hstep
            obtain rfl := Option.some.inj hstep
            obtain ⟨hcounts, hgid, hreg⟩ := hinv
            refine ⟨?_, ?_, ?_⟩
            · intro g1 gr1 hg1
              dsimp only at hg1 ⊢
              rw [countReg_addUser]
              have h1 := countRx_set s.handlers tid
                { h with phase := .registered chan user e.gid } h hh g1
              have h2 := countTx_set s.handlers tid
                { h with phase := .registered chan user e.gid } h hh g1
              dsimp only at h1 h2
              rw [hph] at h1 h2
              simp only [holdsRx, holdsTx] at h1 h2
              by_cases hgg : g1 = e.gid
              · subst hgg
                rw [getElem?_set_same _ _ _ _ hgr] at hg1
                obtain rfl := Option.some.inj hg1
                dsimp only
                have h3 := hcounts _ gr hgr
                simp at h1 h2
                exact ⟨by omega, by omega⟩
              · have hne : e.gid ≠ g1 := fun hc => hgg hc.symm
                rw [List.getElem?_set_ne hne] at hg1
                have h3 := hcounts g1 gr1 hg1
                simp [hne] at h1 h2
                exact ⟨by omega, by omega⟩
            · intro hx hxmem g1 hg1
              dsimp only at hxmem ⊢
              rw [List.length_set]
              rcases List.mem_or_eq_of_mem_set hxmem with h1 | h1
              · exact hgid hx h1 g1 hg1
              · subst h1
                simp only [holdsTx, Option.some.injEq] at hg1
                have := hreg (chan, e) (lookupChan_mem hlk)
                dsimp only at this
                omega
            · intro e1 hmem
              dsimp only at hmem ⊢
              rw [List.length_set]
              rcases mem_addUser hmem with h1 | ⟨e2, he2, rfl⟩
              · exact hreg e1 h1
              · have := hreg (chan, e2) he2
                simpa using this
      | none =>
        simp only [hlk] at hstep
        obtain rfl := Option.some.inj hstep
        obtain ⟨hcounts, hgid, hreg⟩ := hinv
        have hrx0 : countRx s.handlers s.groups.length = 0 := countRx_eq_zero hgid
        have htx0 : countTx s.handlers s.groups.length = 0 := countTx_eq_zero hgid
        have hreg0 : countReg s.registry s.groups.length = 0 := countReg_eq_zero hreg
        refine ⟨?_, ?_, ?_⟩
        · intro g1 gr1 hg1
          dsimp only at hg1 ⊢
          rw [countReg_cons]
          dsimp only
          have h1 := countRx_set s.handlers tid
            { h with phase := .registered chan user s.groups.length } h hh g1
          have h2 := countTx_set s.handlers tid
            { h with phase := .registered chan user s.groups.length } h hh g1
          dsimp only at h1 h2
          rw [hph] at h1 h2
          simp only [holdsRx, holdsTx] at h1 h2
          rw [List.getElem?_append] at hg1
          by_cases hlt : g1 < s.groups.length
          · rw [if_pos hlt] at hg1
            have h3 := hcounts g1 gr1 hg1
            have hne : s.groups.length ≠ g1 := by omega
            have e5 : (if s.groups.length = g1 then 1 else 0) = 0 := by simp [hne]
            rw [e5]
            simp [hne] at h1 h2
            exact ⟨by omega, by omega⟩
          · rw [if_neg hlt] at hg1
            have hgL : g1 = s.groups.length := by
              by_cases h0 : g1 - s.groups.length = 0
              · omega
              · obtain ⟨k, hk⟩ : ∃ k, g1 - s.groups.length = k + 1 :=
                  ⟨g1 - s.groups.length - 1, by omega⟩
                rw [hk] at hg1
                simp at hg1
            subst hgL
            rw [Nat.sub_self] at hg1
            simp only [List.getElem?_cons_zero, Option.some.injEq] at hg1
            obtain rfl := hg1
            dsimp only
            have e5 : (if s.groups.length = s.groups.length then 1 else 0) = 1 := by simp
            rw [e5]
            simp at h1 h2
            exact ⟨by omega, by omega⟩
        · intro hx hxmem g1 hg1
          dsimp only at hxmem ⊢
          rw [List.length_append]
          rcases List.mem_or_eq_of_mem_set hxmem with h1 | h1
          · have := hgid hx h1 g1 hg1
            simp only [List.length_cons, List.length_nil]
            omega
          · subst h1
            simp only [holdsTx, Option.some.injEq] at hg1
            simp only [List.length_cons, List.length_nil]
            omega
        · intro e1 hmem
          dsimp only at hmem ⊢
          rw [List.length_append]
          simp only [List.length_cons, List.length_nil]
          rcases List.mem_cons.mp hmem with h1 | h1
          · subst h1
            dsimp only
            omega
          · have := hreg e1 h1
            omega
  | subscribe tid =>
    simp only [step] at hstep
    cases hh : s.handlers[tid]? with
    | none => rw [hh] at hstep; exact Option.noConfusion hstep
    | some h =>
      simp only [hh] at hstep
      cases hph : h.phase <;> simp only [hph] at hstep <;>
        try exact Option.noConfusion hstep
      rename_i chan user g
      cases hgr : s.groups[g]? with
      | none => rw [hgr] at hstep; exact Option.noConfusion hstep
      | some gr =>
        simp only [hgr] at hstep
        obtain rfl := Option.some.inj hstep
        exact inv_gain_rx hh hgr (by simp [hph, holdsRx]) rfl
          (by simp [hph, holdsTx]) hinv
  | announceJoin tid =>
    simp only [step] at hstep
    cases hh : s.handlers[tid]? with
    | none => rw [hh] at hstep; exact Option.noConfusion hstep
    | some h =>
      simp only [hh] at hstep
      cases hph : h.phase <;> simp only [hph] at hstep <;>
        try exact Option.noConfusion hstep
      rename_i chan user g pos
      cases hgr : s.groups[g]? with
      | none => rw [hgr] at hstep; exact Option.noConfusion hstep
      | some gr =>
        simp only [hgr] at hstep
        by_cases hz : gr.receivers = 0
        · simp only [if_pos hz] at hstep
          obtain rfl := Option.some.inj hstep
          exact inv_drop_both hh hgr (by simp [hph, holdsRx]) rfl rfl hinv
        · simp only [if_neg hz] at hstep
          obtain rfl := Option.some.inj hstep
          have hinv1 := inv_set_group_log hgr (gr.log ++ [user ++ " has joined"]) hinv
          exact @inv_set_handler
            { s with groups :=
                s.groups.set g { gr with log := gr.log ++ [user ++ " has joined"] } }
            tid _ h hh (by simp [hph, holdsRx]) (by simp [hph, holdsTx]) hinv1
  | recvForward tid ok =>
    simp only [step] at hstep
    cases hh : s.handlers[tid]? with
    | none => rw [hh] at hstep; exact Option.noConfusion hstep
    | some h =>
      simp only [hh] at hstep
      cases hph : h.phase <;> simp only [hph] at hstep <;>
        try exact Option.noConfusion hstep
      rename_i chan user g pos
      cases hgr : s.groups[g]? with
      | none => rw [hgr] at hstep; exact Option.noConfusion hstep
      | some gr =>
        simp only [hgr] at hstep
        cases hmsg : gr.log[pos]? with
        | none => rw [hmsg] at hstep; exact Option.noConfusion hstep
        | some msg =>
          simp only [hmsg] at hstep
          by_cases hlen : gr.log.length - pos ≤ MAX_MESSAGES
          · simp only [if_pos hlen] at hstep
            cases ok with
            | true =>
              simp only [if_pos rfl] at hstep
              obtain rfl := Option.some.inj hstep
              exact inv_set_handler hh (by simp [hph, holdsRx]) (by simp [hph, holdsTx]) hinv
            | false =>
              simp only [Bool.false_eq_true, if_neg] at hstep
              obtain rfl := Option.some.inj hstep
              exact inv_drop_both hh hgr (by simp [hph, holdsRx]) rfl rfl hinv
          · rw [if_neg hlen] at hstep
            exact Option.noConfusion hstep
  | recvLagged tid ok =>
    simp only [step] at hstep
    cases hh : s.handlers[tid]? with
    | none => rw [hh] at hstep; exact Option.noConfusion hstep
    | some h =>
      simp only [hh] at hstep
      cases hph : h.phase <;> simp only [hph] at hstep <;>
        try exact Option.noConfusion hstep
      rename_i chan user g pos
      cases hgr : s.groups[g]? with
      | none => rw [hgr] at hstep; exact Option.noConfusion hstep
      | some gr =>
        simp only [hgr] at hstep
        by_cases hlen : MAX_MESSAGES < gr.log.length - pos
        · simp only [if_pos hlen] at hstep
          cases ok with
          | true =>
            simp only [if_pos rfl] at hstep
            obtain rfl := Option.some.inj hstep
            exact inv_set_handler hh (by simp [hph, holdsRx]) (by simp [hph, holdsTx]) hinv
          | false =>
            simp only [Bool.false_eq_true, if_neg] at hstep
            obtain rfl := Option.some.inj hstep
            exact inv_drop_both hh hgr (by simp [hph, holdsRx]) rfl rfl hinv
        · rw [if_neg hlen] at hstep
          exact Option.noConfusion hstep
  | recvClosed tid =>
    simp only [step] at hstep
    cases hh : s.handlers[tid]? with
    | none => rw [hh] at hstep; exact Option.noConfusion hstep
    | some h =>
      simp only [hh] at hstep
      cases hph : h.phase <;> simp only [hph] at hstep <;>
        try exact Option.noConfusion hstep
      rename_i chan user g pos
      cases hgr : s.groups[g]? with
      | none => rw [hgr] at hstep; exact Option.noConfusion hstep
      | some gr =>
        simp only [hgr] at hstep
        by_cases hz : gr.senders = 0
        · simp only [if_pos hz] at hstep
          obtain rfl := Option.some.inj hstep
          exact inv_drop_rx hh hgr (by simp [hph, holdsRx]) rfl (Or.inr rfl) hinv
        · rw [if_neg hz] at hstep
          exact Option.noConfusion hstep
  | clientLine tid line =>
    simp only [step] at hstep
    cases hh : s.handlers[tid]? with
    | none => rw [hh] at hstep; exact Option.noConfusion hstep
    | some h =>
      simp only [hh] at hstep
      cases hph : h.phase <;> simp only [hph] at hstep <;>
        try exact Option.noConfusion hstep
      rename_i chan user g pos
      cases hgr : s.groups[g]? with
      | none => rw [hgr] at hstep; exact Option.noConfusion hstep
      | some gr =>
        simp only [hgr] at hstep
        by_cases hz : gr.receivers = 0
        · simp only [if_pos hz] at hstep
          obtain rfl := Option.some.inj hstep
          exact inv_drop_both hh hgr (by simp [hph, holdsRx]) rfl rfl hinv
        · simp only [if_neg hz] at hstep
          obtain rfl := Option.some.inj hstep
          exact inv_set_group_log hgr _ hinv
  | readError tid =>
    simp only [step] at hstep
    cases hh : s.handlers[tid]? with
    | none => rw [hh] at hstep; exact Option.noConfusion hstep
    | some h =>
      simp only [hh] at hstep
      cases hph : h.phase <;> simp only [hph] at hstep <;>
        try exact Option.noConfusion hstep
      obtain rfl := Option.some.inj hstep
      exact hinv
  | streamEnd tid =>
    simp only [step] at hstep
    cases hh : s.handlers[tid]? with
    | none => rw [hh] at hstep; exact Option.noConfusion hstep
    | some h =>
      simp only [hh] at hstep
      cases hph : h.phase <;> simp only [hph] at hstep <;>
        try exact Option.noConfusion hstep
      obtain rfl := Option.some.inj hstep
      exact inv_set_handler hh (by simp [hph, holdsRx]) (by simp [hph, holdsTx]) hinv
  | publishLeft tid =>
    simp only [step] at hstep
    cases hh : s.handlers[tid]? with
    | none => rw [hh] at hstep; exact Option.noConfusion hstep
    | some h =>
      simp only [hh] at hstep
      cases hph : h.phase <;> simp only [hph] at hstep <;>
        try exact Option.noConfusion hstep
      rename_i chan user g pos
      cases hgr : s.groups[g]? with
      | none => rw [hgr] at hstep; exact Option.noConfusion hstep
      | some gr =>
        simp only [hgr] at hstep
        by_cases hz : gr.receivers = 0
        · simp only [if_pos hz] at hstep
          obtain rfl := Option.some.inj hstep
          exact inv_drop_both hh hgr (by simp [hph, holdsRx]) rfl rfl hinv
        · simp only [if_neg hz] at hstep
          obtain rfl := Option.some.inj hstep
          have hinv1 := inv_set_group_log hgr (gr.log ++ [user ++ " has left"]) hinv
          exact @inv_set_handler
            { s with groups :=
                s.groups.set g { gr with log := gr.log ++ [user ++ " has left"] } }
            tid _ h hh (by simp [hph, holdsRx]) (by simp [hph, holdsTx]) hinv1
  | dropRx tid =>
    simp only [step] at hstep
    cases hh : s.handlers[tid]? with
    | none => rw [hh] at hstep; exact Option.noConfusion hstep
    | some h =>
      simp only [hh] at hstep
      cases hph : h.phase <;> simp only [hph] at hstep <;>
        try exact Option.noConfusion hstep
      rename_i chan user g pos
      cases hgr : s.groups[g]? with
      | none => rw [hgr] at hstep; exact Option.noConfusion hstep
      | some gr =>
        simp only [hgr] at hstep
        obtain rfl := Option.some.inj hstep
        exact inv_drop_rx hh hgr (by simp [hph, holdsRx]) rfl
          (Or.inl (by simp [hph, holdsTx])) hinv
  | checkCount tid =>
    simp only [step] at hstep
    cases hh : s.handlers[tid]? with
    | none => rw [hh] at hstep; exact Option.noConfusion hstep
    | some h =>
      simp only [hh] at hstep
      cases hph : h.phase <;> simp only [hph] at hstep <;>
        try exact Option.noConfusion hstep
      rename_i chan user g
      cases hgr : s.groups[g]? with
      | none => rw [hgr] at hstep; exact Option.noConfusion hstep
      | some gr =>
        simp only [hgr] at hstep
        obtain rfl := Option.some.inj hstep
        exact inv_set_handler hh (by simp [hph, holdsRx]) (by simp [hph, holdsTx]) hinv
  | finish tid =>
    simp only [step] at hstep
    cases hh : s.handlers[tid]? with
    | none => rw [hh] at hstep; exact Option.noConfusion hstep
    | some h =>
      simp only [hh] at hstep
      cases hph : h.phase <;> simp only [hph] at hstep <;>
        try exact Option.noConfusion hstep
      rename_i chan user g cnt
      cases hgr : s.groups[g]? with
      | none => rw [hgr] at hstep; exact Option.noConfusion hstep
      | some gr =>
        simp only [hgr] at hstep
        by_cases hz : cnt = 0
        · simp only [if_pos hz] at hstep
          cases hlk : lookupChan s.registry chan with
          | none =>
            simp only [hlk] at hstep
            obtain rfl := Option.some.inj hstep
            exact inv_drop_tx hh hgr (by simp [hph, holdsTx]) (by simp [hph, holdsRx])
              rfl rfl hinv
          | some e =>
            simp only [hlk] at hstep
            cases hge : s.groups[e.gid]? with
            | none => rw [hge] at hstep; exact Option.noConfusion hstep
            | some ge =>
              simp only [hge] at hstep
              obtain ⟨hcounts, hgid, hreg⟩ := hinv
              by_cases heg : e.gid = g
              · simp only [if_pos heg] at hstep
                obtain rfl := Option.some.inj hstep
                refine ⟨?_, ?_, ?_⟩
                · intro g1 gr1 hg1
                  dsimp only at hg1 ⊢
                  have hcr := countReg_removeChan s.registry chan e hlk g1
                  have h1 := countRx_set s.handlers tid { h with phase := .closed } h hh g1
                  have h2 := countTx_set s.handlers tid { h with phase := .closed } h hh g1
                  dsimp only at h1 h2
                  rw [hph] at h1 h2
                  simp only [holdsRx, holdsTx] at h1 h2
                  by_cases hgg : g1 = g
                  · subst hgg
                    rw [getElem?_set_same _ _ _ _ hgr] at hg1
                    obtain rfl := Option.some.inj hg1
                    dsimp only
                    have h3 := hcounts g1 gr hgr
                    have h5 := countTx_one_le s.handlers tid h g1 hh (by simp [hph, holdsTx])
                    have hr1 := countReg_one_le s.registry chan e hlk
                    rw [heg] at hr1
                    simp at h1 h2
                    simp [heg] at hcr
                    exact ⟨by omega, by omega⟩
                  · have hne : g ≠ g1 := fun hc => hgg hc.symm
                    rw [List.getElem?_set_ne hne] at hg1
                    have h3 := hcounts g1 gr1 hg1
                    have hne2 : e.gid ≠ g1 := by rw [heg]; exact hne
                    simp [hne] at h1 h2
                    simp [hne2] at hcr
                    exact ⟨by omega, by omega⟩
                · intro hx hxmem g1 hg1
                  dsimp only at hxmem ⊢
                  rw [List.length_set]
                  rcases List.mem_or_eq_of_mem_set hxmem with h1 | h1
                  · exact hgid hx h1 g1 hg1
                  · subst h1
                    simp [holdsTx] at hg1
                · intro e1 hmem
                  dsimp only at hmem ⊢
                  rw [List.length_set]
                  exact hreg e1 (mem_removeChan hmem)
              · simp only [if_neg heg] at hstep
                obtain rfl := Option.some.inj hstep
                refine ⟨?_, ?_, ?_⟩
                · intro g1 gr1 hg1
                  dsimp only at hg1 ⊢
                  have hcr := countReg_removeChan s.registry chan e hlk g1
                  have h1 := countRx_set s.handlers tid { h with phase := .closed } h hh g1
                  have h2 := countTx_set s.handlers tid { h with phase := .closed } h hh g1
                  dsimp only at h1 h2
                  rw [hph] at h1 h2
                  simp only [holdsRx, holdsTx] at h1 h2
                  by_cases hge1 : g1 = e.gid
                  · subst hge1
                    have hstep1 :
                        (s.groups.set g { gr with senders := gr.senders - 1 })[e.gid]?
                        = some ge := by
                      rw [List.getElem?_set_ne (fun hc => heg (hc.symm))]
                      exact hge
                    rw [getElem?_set_same _ _ _ _ hstep1] at hg1
                    obtain rfl := Option.some.inj hg1
                    dsimp only
                    have h3 := hcounts _ ge hge
                    have hr1 := countReg_one_le s.registry chan e hlk
                    have hne : g ≠ e.gid := fun hc => heg hc.symm
                    simp [hne] at h1 h2
                    simp at hcr
                    exact ⟨by omega, by omega⟩
                  · have hne3 : e.gid ≠ g1 := fun hc => hge1 hc.symm
                    rw [List.getElem?_set_ne hne3] at hg1
                    by_cases hgg : g1 = g
                    · subst hgg
                      rw [getElem?_set_same _ _ _ _ hgr] at hg1
                      obtain rfl := Option.some.inj hg1
                      dsimp only
                      have h3 := hcounts g1 gr hgr
                      have h5 := countTx_one_le s.handlers tid h g1 hh
                        (by simp [hph, holdsTx])
                      simp at h1 h2
                      simp [hne3] at hcr
                      exact ⟨by omega, by omega⟩
                    · have hne4 : g ≠ g1 := fun hc => hgg hc.symm
                      rw [List.getElem?_set_ne hne4] at hg1
                      have h3 := hcounts g1 gr1 hg1
                      simp [hne4] at h1 h2
                      simp [hne3] at hcr
                      exact ⟨by omega, by omega⟩
                · intro hx hxmem g1 hg1
                  dsimp only at hxmem ⊢
                  rw [List.length_set, List.length_set]
                  rcases List.mem_or_eq_of_mem_set hxmem with h1 | h1
                  · exact hgid hx h1 g1 hg1
                  · subst h1
                    simp [holdsTx] at hg1
                · intro e1 hmem
                  dsimp only at hmem ⊢
                  rw [List.length_set, List.length_set]
                  exact hreg e1 (mem_removeChan hmem)
        · simp only [if_neg hz] at hstep
          obtain rfl := Option.some.inj hstep
          exact inv_drop_tx hh hgr (by simp [hph, holdsTx]) (by simp [hph, holdsRx])
            rfl rfl hinv

theorem inv_init (n : Nat) : Inv (initState n) := by
  refine ⟨?_, ?_, ?_⟩
  · intro g gr hg
    simp [initState] at hg
  · intro h hmem g hg
    simp only [initState] at hmem
    have := (List.eq_of_mem_replicate hmem)
    rw [this] at hg
    simp [holdsTx] at hg
  · intro e hmem
    simp [initState] at hmem

theorem inv_run {s s' : ServerState} {acts : List Action} (hinv : Inv s)
    (hrun : run s acts = some s') : Inv s' := by
  induction acts generalizing s with
  | nil =>
    simp only [run] at hrun
    obtain rfl := Option.some.inj hrun
    exact hinv
  | cons a rest ih =>
    simp only [run] at hrun
    cases hstep : step s a with
    | none => rw [hstep] at hrun; exact Option.noConfusion hrun
    | some s1 =>
      rw [hstep] at hrun
      exact ih (inv_step hinv hstep) hrun

theorem reachable_inv {s : ServerState} (h : Reachable s) : Inv s := by
  obtain ⟨n, acts, hr⟩ := h
  exact inv_run (inv_init n) hr

/-! ## Name-validity invariant

Every channel and user name a handler carries past the parse, and hence
every registry key and roster member, came out of `parse_join_command`, so
it survived the filtering pass: at most 20 UTF-8 bytes and whitespace-free
(`nameOk`).  Emptiness is *not* guaranteed — see the C3 counterexample. -/

/-- The names carried by a handler's control point are filter-valid. -/
def phaseNamesOk : Phase → Prop
  | .parsed c u => nameOk c ∧ nameOk u
  | .registered c u _ => nameOk c ∧ nameOk u
  | .subscribed c u _ _ => nameOk c ∧ nameOk u
  | .joined c u _ _ => nameOk c ∧ nameOk u
  | .disconnected c u _ _ => nameOk c ∧ nameOk u
  | .leftAnnounced c u _ _ => nameOk c ∧ nameOk u
  | .droppedRx c u _ => nameOk c ∧ nameOk u
  | .checkedCount c u _ _ => nameOk c ∧ nameOk u
  | _ => True

/-- Every name in the system is filter-valid: handler-carried names,
registry keys and roster members. -/
def NamesInv (s : ServerState) : Prop :=
  (∀ h ∈ s.handlers, phaseNamesOk h.phase)
  ∧ (∀ e ∈ s.registry, nameOk e.1 ∧ ∀ u ∈ e.2.users, nameOk u)

theorem parse_names_ok {line c u : String} (h : parse_join_command line = some (c, u)) :
    nameOk c ∧ nameOk u := by
  have hs := (parse_eq_some_iff line c u).mp h
  constructor
  · exact mem_survivingTerms line c (by rw [hs]; simp)
  · exact mem_survivingTerms line u (by rw [hs]; simp)

theorem names_step {s s' : ServerState} {a : Action} (hinv : NamesInv s)
    (hstep : step s a = some s') : NamesInv s' := by
  obtain ⟨hH, hR⟩ := hinv
  cases a with
  | deliverJoinLine tid line =>
    simp only [step] at hstep
    cases hh : s.handlers[tid]? with
    | none => rw [hh] at hstep; exact Option.noConfusion hstep
    | some h =>
      simp only [hh] at hstep
      cases hph : h.phase <;> simp only [hph] at hstep <;>
        try exact Option.noConfusion hstep
      cases hp : parse_join_command line with
      | some cu =>
        obtain ⟨chan, user⟩ := cu
        simp only [hp] at hstep
        obtain rfl := Option.some.inj hstep
        refine ⟨?_, hR⟩
        intro x hxmem
        rcases List.mem_or_eq_of_mem_set hxmem with h1 | h1
        · exact hH x h1
        · subst h1
          exact parse_names_ok hp
      | none =>
        simp only [hp] at hstep
        obtain rfl := Option.some.inj hstep
        refine ⟨?_, hR⟩
        intro x hxmem
        rcases List.mem_or_eq_of_mem_set hxmem with h1 | h1
        · exact hH x h1
        · subst h1
          trivial
  | noJoinLine tid =>
    simp only [step] at hstep
    cases hh : s.handlers[tid]? with
    | none => rw [hh] at hstep; exact Option.noConfusion hstep
    | some h =>
      simp only [hh] at hstep
      cases hph : h.phase <;> simp only [hph] at hstep <;>
        try exact Option.noConfusion hstep
      obtain rfl := Option.some.inj hstep
      refine ⟨?_, hR⟩
      intro x hxmem
      rcases List.mem_or_eq_of_mem_set hxmem with h1 | h1
      · exact hH x h1
      · subst h1
        trivial
  | registryJoin tid =>
    simp only [step] at hstep
    cases hh : s.handlers[tid]? with
    | none => rw [hh] at hstep; exact Option.noConfusion hstep
    | some h =>
      simp only [hh] at hstep
      cases hph : h.phase <;> simp only [hph] at hstep <;>
        try exact Option.noConfusion hstep
      rename_i chan user
      have hcu : nameOk chan ∧ nameOk user := by
        have := hH h (List.getElem?_mem hh)
        rw [hph] at this
        exact this
      cases hlk : lookupChan s.registry chan with
      | some e =>
        simp only [hlk] at hstep
        by_cases hu : user ∈ e.users
        · simp only [if_pos hu] at hstep
          obtain rfl := Option.some.inj hstep
          refine ⟨?_, hR⟩
          intro x hxmem
          dsimp only at hxmem
          rcases List.mem_or_eq_of_mem_set hxmem with h1 | h1
          · exact hH x h1
          · subst h1
            trivial
        · simp only [if_neg hu] at hstep
          cases hgr : s.groups[e.gid]? with
          | none => rw [hgr] at hstep; exact Option.noConfusion hstep
          | some gr =>
            simp only [hgr] at hstep
            obtain rfl := Option.some.inj hstep
            constructor
            · intro x hxmem
              dsimp only at hxmem
              rcases List.mem_or_eq_of_mem_set hxmem with h1 | h1
              · exact hH x h1
              · subst h1
                exact hcu
            · intro e1 hmem
              dsimp only at hmem
              rcases mem_addUser hmem with h1 | ⟨e2, he2, rfl⟩
              · exact hR e1 h1
              · have h2 := hR (chan, e2) he2
                refine ⟨h2.1, ?_⟩
                intro u1 hu1
                dsimp only at hu1
                rcases List.mem_append.mp hu1 with h3 | h3
                · exact h2.2 u1 h3
                · rw [List.mem_singleton.mp h3]
                  exact hcu.2
      | none =>
        simp only [hlk] at hstep
        obtain rfl := Option.some.inj hstep
        constructor
        · intro x hxmem
          dsimp only at hxmem
          rcases List.mem_or_eq_of_mem_set hxmem with h1 | h1
          · exact hH x h1
          · subst h1
            exact hcu
        · intro e1 hmem
          dsimp only at hmem
          rcases List.mem_cons.mp hmem with h1 | h1
          · subst h1
            refine ⟨hcu.1, ?_⟩
            intro u1 hu1
            rw [List.mem_singleton.mp hu1]
            exact hcu.2
          · exact hR e1 h1
  | subscribe tid =>
    simp only [step] at hstep
    cases hh : s.handlers[tid]? with
    | none => rw [hh] at hstep; exact Option.noConfusion hstep
    | some h =>
      simp only [hh] at hstep
      cases hph : h.phase <;> simp only [hph] at hstep <;>
        try exact Option.noConfusion hstep
      rename_i chan user g
      cases hgr : s.groups[g]? with
      | none => rw [hgr] at hstep; exact Option.noConfusion hstep
      | some gr =>
        simp only [hgr] at hstep
        obtain rfl := Option.some.inj hstep
        refine ⟨?_, hR⟩
        intro x hxmem
        rcases List.mem_or_eq_of_mem_set hxmem with h1 | h1
        · exact hH x h1
        · subst h1
          have := hH h (List.getElem?_mem hh)
          rw [hph] at this
          exact this
  | announceJoin tid =>
    simp only [step] at hstep
    cases hh : s.handlers[tid]? with
    | none => rw [hh] at hstep; exact Option.noConfusion hstep
    | some h =>
      simp only [hh] at hstep
      cases hph : h.phase <;> simp only [hph] at hstep <;>
        try exact Option.noConfusion hstep
      rename_i chan user g pos
      cases hgr : s.groups[g]? with
      | none => rw [hgr] at hstep; exact Option.noConfusion hstep
      | some gr =>
        simp only [hgr] at hstep
        have hnames := hH h (List.getElem?_mem hh)
        rw [hph] at hnames
        by_cases hz : gr.receivers = 0 <;>
          [simp only [if_pos hz] at hstep; simp only [if_neg hz] at hstep] <;>
          obtain rfl := Option.some.inj hstep <;>
          refine ⟨?_, hR⟩ <;>
          intro x hxmem <;>
          rcases List.mem_or_eq_of_mem_set hxmem with h1 | h1 <;>
          first
            | exact hH x h1
            | (subst h1; first | trivial | exact hnames)
  | recvForward tid ok =>
    simp only [step] at hstep
    cases hh : s.handlers[tid]? with
    | none => rw [hh] at hstep; exact Option.noConfusion hstep
    | some h =>
      simp only [hh] at hstep
      cases hph : h.phase <;> simp only [hph] at hstep <;>
        try exact Option.noConfusion hstep
      rename_i chan user g pos
      cases hgr : s.groups[g]? with
      | none => rw [hgr] at hstep; exact Option.noConfusion hstep
      | some gr =>
        simp only [hgr] at hstep
        cases hmsg : gr.log[pos]? with
        | none => rw [hmsg] at hstep; exact Option.noConfusion hstep
        | some msg =>
          simp only [hmsg] at hstep
          have hnames := hH h (List.getElem?_mem hh)
          rw [hph] at hnames
          by_cases hlen : gr.log.length - pos ≤ MAX_MESSAGES
          · simp only [if_pos hlen] at hstep
            cases ok with
            | true =>
              rw [if_pos rfl] at hstep
              obtain rfl := Option.some.inj hstep
              refine ⟨?_, hR⟩
              intro x hxmem
              rcases List.mem_or_eq_of_mem_set hxmem with h1 | h1
              · exact hH x h1
              · subst h1
                exact hnames
            | false =>
              rw [if_neg (by simp)] at hstep
              obtain rfl := Option.some.inj hstep
              refine ⟨?_, hR⟩
              intro x hxmem
              rcases List.mem_or_eq_of_mem_set hxmem with h1 | h1
              · exact hH x h1
              · subst h1
                trivial
          · rw [if_neg hlen] at hstep
            exact Option.noConfusion hstep
  | recvLagged tid ok =>
    simp only [step] at hstep
    cases hh : s.handlers[tid]? with
    | none => rw [hh] at hstep; exact Option.noConfusion hstep
    | some h =>
      simp only [hh] at hstep
      cases hph : h.phase <;> simp only [hph] at hstep <;>
        try exact Option.noConfusion hstep
      rename_i chan user g pos
      cases hgr : s.groups[g]? with
      | none => rw [hgr] at hstep; exact Option.noConfusion hstep
      | some gr =>
        simp only [hgr] at hstep
        have hnames := hH h (List.getElem?_mem hh)
        rw [hph] at hnames
        by_cases hlen : MAX_MESSAGES < gr.log.length - pos
        · simp only [if_pos hlen] at hstep
          cases ok with
          | true =>
            rw [if_pos rfl] at hstep
            obtain rfl := Option.some.inj hstep
            refine ⟨?_, hR⟩
            intro x hxmem
            rcases List.mem_or_eq_of_mem_set hxmem with h1 | h1
            · exact hH x h1
            · subst h1
              simp only [phaseNamesOk] at hnames ⊢
              exact hnames
          | false =>
            rw [if_neg (by simp)] at hstep
            obtain rfl := Option.some.inj hstep
            refine ⟨?_, hR⟩
            intro x hxmem
            rcases List.mem_or_eq_of_mem_set hxmem with h1 | h1
            · exact hH x h1
            · subst h1
              trivial
        · rw [if_neg hlen] at hstep
          exact Option.noConfusion hstep
  | recvClosed tid =>
    simp only [step] at hstep
    cases hh : s.handlers[tid]? with
    | none => rw [hh] at hstep; exact Option.noConfusion hstep
    | some h =>
      simp only [hh] at hstep
      cases hph : h.phase <;> simp only [hph] at hstep <;>
        try exact Option.noConfusion hstep
      rename_i chan user g pos
      cases hgr : s.groups[g]? with
      | none => rw [hgr] at hstep; exact Option.noConfusion hstep
      | some gr =>
        simp only [hgr] at hstep
        by_cases hz : gr.senders = 0
        · simp only [if_pos hz] at hstep
          obtain rfl := Option.some.inj hstep
          refine ⟨?_, hR⟩
          intro x hxmem
          rcases List.mem_or_eq_of_mem_set hxmem with h1 | h1
          · exact hH x h1
          · subst h1
            trivial
        · rw [if_neg hz] at hstep
          exact Option.noConfusion hstep
  | clientLine tid line =>
    simp only [step] at hstep
    cases hh : s.handlers[tid]? with
    | none => rw [hh] at hstep; exact Option.noConfusion hstep
    | some h =>
      simp only [hh] at hstep
      cases hph : h.phase <;> simp only [hph] at hstep <;>
        try exact Option.noConfusion hstep
      rename_i chan user g pos
      cases hgr : s.groups[g]? with
      | none => rw [hgr] at hstep; exact Option.noConfusion hstep
      | some gr =>
        simp only [hgr] at hstep
        by_cases hz : gr.receivers = 0
        · simp only [if_pos hz] at hstep
          obtain rfl := Option.some.inj hstep
          refine ⟨?_, hR⟩
          intro x hxmem
          rcases List.mem_or_eq_of_mem_set hxmem with h1 | h1
          · exact hH x h1
          · subst h1
            trivial
        · simp only [if_neg hz] at hstep
          obtain rfl := Option.some.inj hstep
          exact ⟨hH, hR⟩
  | readError tid =>
    simp only [step] at hstep
    cases hh : s.handlers[tid]? with
    | none => rw [hh] at hstep; exact Option.noConfusion hstep
    | some h =>
      simp only [hh] at hstep
      cases hph : h.phase <;> simp only [hph] at hstep <;>
        try exact Option.noConfusion hstep
      obtain rfl := Option.some.inj hstep
      exact ⟨hH, hR⟩
  | streamEnd tid =>
    simp only [step] at hstep
    cases hh : s.handlers[tid]? with
    | none => rw [hh] at hstep; exact Option.noConfusion hstep
    | some h =>
      simp only [hh] at hstep
      cases hph : h.phase <;> simp only [hph] at hstep <;>
        try exact Option.noConfusion hstep
      obtain rfl := Option.some.inj hstep
      refine ⟨?_, hR⟩
      intro x hxmem
      rcases List.mem_or_eq_of_mem_set hxmem with h1 | h1
      · exact hH x h1
      · subst h1
        have := hH h (List.getElem?_mem hh)
        rw [hph] at this
        exact this
  | publishLeft tid =>
    simp only [step] at hstep
    cases hh : s.handlers[tid]? with
    | none => rw [hh] at hstep; exact Option.noConfusion hstep
    | some h =>
      simp only [hh] at hstep
      cases hph : h.phase <;> simp only [hph] at hstep <;>
        try exact Option.noConfusion hstep
      rename_i chan user g pos
      cases hgr : s.groups[g]? with
      | none => rw [hgr] at hstep; exact Option.noConfusion hstep
      | some gr =>
        simp only [hgr] at hstep
        have hnames := hH h (List.getElem?_mem hh)
        rw [hph] at hnames
        by_cases hz : gr.receivers = 0 <;>
          [simp only [if_pos hz] at hstep; simp only [if_neg hz] at hstep] <;>
          obtain rfl := Option.some.inj hstep <;>
          refine ⟨?_, hR⟩ <;>
          intro x hxmem <;>
          rcases List.mem_or_eq_of_mem_set hxmem with h1 | h1 <;>
          first
            | exact hH x h1
            | (subst h1; first | trivial | exact hnames)
  | dropRx tid =>
    simp only [step] at hstep
    cases hh : s.handlers[tid]? with
    | none => rw [hh] at hstep; exact Option.noConfusion hstep
    | some h =>
      simp only [hh] at hstep
      cases hph : h.phase <;> simp only [hph] at hstep <;>
        try exact Option.noConfusion hstep
      rename_i chan user g pos
      cases hgr : s.groups[g]? with
      | none => rw [hgr] at hstep; exact Option.noConfusion hstep
      | some gr =>
        simp only [hgr] at hstep
        obtain rfl := Option.some.inj hstep
        refine ⟨?_, hR⟩
        intro x hxmem
        rcases List.mem_or_eq_of_mem_set hxmem with h1 | h1
        · exact hH x h1
        · subst h1
          have := hH h (List.getElem?_mem hh)
          rw [hph] at this
          exact this
  | checkCount tid =>
    simp only [step] at hstep
    cases hh : s.handlers[tid]? with
    | none => rw [hh] at hstep; exact Option.noConfusion hstep
    | some h =>
      simp only [hh] at hstep
      cases hph : h.phase <;> simp only [hph] at hstep <;>
        try exact Option.noConfusion hstep
      rename_i chan user g
      cases hgr : s.groups[g]? with
      | none => rw [hgr] at hstep; exact Option.noConfusion hstep
      | some gr =>
        simp only [hgr] at hstep
        obtain rfl := Option.some.inj hstep
        refine ⟨?_, hR⟩
        intro x hxmem
        rcases List.mem_or_eq_of_mem_set hxmem with h1 | h1
        · exact hH x h1
        · subst h1
          have := hH h (List.getElem?_mem hh)
          rw [hph] at this
          exact this
  | finish tid =>
    simp only [step] at hstep
    cases hh : s.handlers[tid]? with
    | none => rw [hh] at hstep; exact Option.noConfusion hstep
    | some h =>
      simp only [hh] at hstep
      cases hph : h.phase <;> simp only [hph] at hstep <;>
        try exact Option.noConfusion hstep
      rename_i chan user g cnt
      cases hgr : s.groups[g]? with
      | none => rw [hgr] at hstep; exact Option.noConfusion hstep
      | some gr =>
        simp only [hgr] at hstep
        by_cases hz : cnt = 0
        · simp only [if_pos hz] at hstep
          cases hlk : lookupChan s.registry chan with
          | none =>
            simp only [hlk] at hstep
            obtain rfl := Option.some.inj hstep
            refine ⟨?_, hR⟩
            intro x hxmem
            rcases List.mem_or_eq_of_mem_set hxmem with h1 | h1
            · exact hH x h1
            · subst h1
              trivial
          | some e =>
            simp only [hlk] at hstep
            cases hge : s.groups[e.gid]? with
            | none => rw [hge] at hstep; exact Option.noConfusion hstep
            | some ge =>
              simp only [hge] at hstep
              by_cases heg : e.gid = g <;>
                [simp only [if_pos heg] at hstep; simp only [if_neg heg] at hstep] <;>
                obtain rfl := Option.some.inj hstep <;>
                refine ⟨?_, ?_⟩ <;>
                first
                  | (intro x hxmem
                     rcases List.mem_or_eq_of_mem_set hxmem with h1 | h1
                     · exact hH x h1
                     · subst h1; trivial)
                  | (intro e1 hmem
                     exact hR e1 (mem_removeChan hmem))
        · simp only [if_neg hz] at hstep
          obtain rfl := Option.some.inj hstep
          refine ⟨?_, hR⟩
          intro x hxmem
          rcases List.mem_or_eq_of_mem_set hxmem with h1 | h1
          · exact hH x h1
          · subst h1
            trivial

theorem names_init (n : Nat) : NamesInv (initState n) := by
  constructor
  · intro h hmem
    simp only [initState] at hmem
    rw [List.eq_of_mem_replicate hmem]
    trivial
  · intro e hmem
    simp [initState] at hmem

theorem names_run {s s' : ServerState} {acts : List Action} (hinv : NamesInv s)
    (hrun : run s acts = some s') : NamesInv s' := by
  induction acts generalizing s with
  | nil =>
    simp only [run] at hrun
    obtain rfl := Option.some.inj hrun
    exact hinv
  | cons a rest ih =>
    simp only [run] at hrun
    cases hstep : step s a with
    | none => rw [hstep] at hrun; exact Option.noConfusion hrun
    | some s1 =>
      rw [hstep] at hrun
      exact ih (names_step hinv hstep) hrun

theorem reachable_names {s : ServerState} (h : Reachable s) : NamesInv s := by
  obtain ⟨n, acts, hr⟩ := h
  exact names_run (names_init n) hr

/-! ## Claim theorems about the connection lifecycle -/

/-- **C3, amended.** Every channel name and user name returned by a
successful parse — and hence every registry key and roster member in any
reachable state — has UTF-8 byte length at most 20 (hence at most 20
characters) and contains no whitespace character; but it may be *empty*
(see the counterexample), so the claim's non-emptiness part is dropped. -/
theorem C3_names_valid :
    (∀ line c u, parse_join_command line = some (c, u) →
      (utf8Len c.data ≤ 20 ∧ c.data.length ≤ 20 ∧ c.data.any rustIsWhitespace = false)
      ∧ (utf8Len u.data ≤ 20 ∧ u.data.length ≤ 20 ∧ u.data.any rustIsWhitespace = false))
    ∧ (∀ s : ServerState, Reachable s → ∀ e ∈ s.registry,
        (utf8Len e.1.data ≤ 20 ∧ e.1.data.length ≤ 20
          ∧ e.1.data.any rustIsWhitespace = false)
        ∧ ∀ u ∈ e.2.users,
            utf8Len u.data ≤ 20 ∧ u.data.length ≤ 20
              ∧ u.data.any rustIsWhitespace = false) := by
  constructor
  · intro line c u hp
    obtain ⟨⟨hc1, hc2⟩, hu1, hu2⟩ := parse_names_ok hp
    exact ⟨⟨hc1, le_trans (length_le_utf8Len c.data) hc1, hc2⟩,
      hu1, le_trans (length_le_utf8Len u.data) hu1, hu2⟩
  · intro s hs e hmem
    obtain ⟨-, hR⟩ := reachable_names hs
    obtain ⟨⟨hc1, hc2⟩, husers⟩ := hR e hmem
    refine ⟨⟨hc1, le_trans (length_le_utf8Len e.1.data) hc1, hc2⟩, ?_⟩
    intro u hu
    obtain ⟨hu1, hu2⟩ := husers u hu
    exact ⟨hu1, le_trans (length_le_utf8Len u.data) hu1, hu2⟩

/-- **C3, amended: witness.** The names parsed from `JOIN c u` and the
registry contents of a concrete reachable state satisfy the bounds. -/
theorem C3_names_valid_witness :
    ((utf8Len "c".data ≤ 20 ∧ "c".data.length ≤ 20
        ∧ "c".data.any rustIsWhitespace = false)
      ∧ (utf8Len "u".data ≤ 20 ∧ "u".data.length ≤ 20
        ∧ "u".data.any rustIsWhitespace = false))
    ∧ ((utf8Len "c".data ≤ 20 ∧ "c".data.length ≤ 20
        ∧ "c".data.any rustIsWhitespace = false)
      ∧ ∀ u ∈ ["u"],
          utf8Len u.data ≤ 20 ∧ u.data.length ≤ 20
            ∧ u.data.any rustIsWhitespace = false) := by
  constructor
  · exact (C3_names_valid.1 "JOIN c u" "c" "u" (by decide))
  · exact C3_names_valid.2
      ⟨[("c", ⟨["u"], 0⟩)], [⟨0, 2, []⟩], [⟨.registered "c" "u" 0, []⟩]⟩
      ⟨1, [.deliverJoinLine 0 "JOIN c u", .registryJoin 0], by decide⟩
      ("c", ⟨["u"], 0⟩) (by decide)

/-- **C4, counterexample.** A join that has passed the registry critical
section but not yet subscribed (the window between `src/server.rs` line 188
and line 192) leaves a reachable state in which channel `c` is present in
the registry while its Broadcast Group has *zero* live subscribers,
refuting "a channel entry is present iff its group has at least one live
subscriber". -/
theorem C4_counterexample :
    (run (initState 1) [.deliverJoinLine 0 "JOIN c u", .registryJoin 0]).map
        (fun s => (lookupChan s.registry "c", s.groups[0]?))
      = some (some { users := ["u"], gid := 0 },
          some { receivers := 0, senders := 2, log := [] }) := by
  decide

/-- **C4, amended.** A channel entry may be present with zero live
subscribers — between registry insertion and `subscribe`, after a join
rejected with `UserAlreadyInChannel`, or after a handler aborts on a send
error.  What does hold in every reachable state is that the group of every
registry entry is live in the weaker sense of having at least one live
*sender* handle (the registry entry's own `Tx`); and an entry is only ever
removed by a departing handler that observed a zero subscriber count. -/
theorem C4_registry_group_alive {s : ServerState} (hs : Reachable s) :
    ∀ name e, lookupChan s.registry name = some e →
      ∃ gr, s.groups[e.gid]? = some gr ∧ 1 ≤ gr.senders := by
  obtain ⟨hcounts, hgid, hreg⟩ := reachable_inv hs
  intro name e hlk
  have hb := hreg (name, e) (lookupChan_mem hlk)
  dsimp only at hb
  refine ⟨s.groups[e.gid], List.getElem?_eq_getElem hb, ?_⟩
  have h2 := (hcounts e.gid _ (List.getElem?_eq_getElem hb)).2
  have h3 := countReg_one_le s.registry name e hlk
  omega

/-- **C4, amended: witness.** Applied at the zero-subscriber window state:
the entry's group is alive through its sender handles. -/
theorem C4_registry_group_alive_witness :
    ∃ gr, ([({ receivers := 0, senders := 2, log := [] } : GroupState)])[(0 : Nat)]?
        = some gr ∧ 1 ≤ gr.senders := by
  exact @C4_registry_group_alive
    ⟨[("c", ⟨["u"], 0⟩)], [⟨0, 2, []⟩], [⟨.registered "c" "u" 0, []⟩]⟩
    ⟨1, [.deliverJoinLine 0 "JOIN c u", .registryJoin 0], by decide⟩
    "c" ⟨["u"], 0⟩ (by decide)

/-- **C5.** A join naming a channel whose roster already contains the
requested username sends exactly one `ERROR` line to that client, fails
with `UserAlreadyInChannel`, and mutates neither roster, registry nor
groups; a join with a fresh username appends it to the roster and proceeds
to `registered`.  Consequently, of two connections joining the same channel
with the same username only the first is added to the roster (final
conjunct: a concrete two-connection run, the second handler failed with one
`ERROR` and the roster still `["u"]`). -/
theorem C5_username_uniqueness :
    (∀ (s : ServerState) (tid : Nat) (h : HandlerState) (chan user : String)
        (e : ChannelEntry) (gr : GroupState),
      s.handlers[tid]? = some h → h.phase = .parsed chan user →
      lookupChan s.registry chan = some e → s.groups[e.gid]? = some gr →
      (user ∈ e.users →
        step s (.registryJoin tid) = some
          { registry := s.registry, groups := s.groups,
            handlers := s.handlers.set tid
              { phase := .failed .userAlreadyInChannel, sent := h.sent ++ ["ERROR"] } })
      ∧ (user ∉ e.users →
        step s (.registryJoin tid) = some
          { registry := addUser s.registry chan user,
            groups := s.groups.set e.gid { gr with senders := gr.senders + 1 },
            handlers := s.handlers.set tid
              { h with phase := .registered chan user e.gid } }))
    ∧ run (initState 2)
        [.deliverJoinLine 0 "JOIN c u", .registryJoin 0,
         .deliverJoinLine 1 "JOIN c u", .registryJoin 1]
      = some ⟨[("c", ⟨["u"], 0⟩)], [⟨0, 2, []⟩],
          [⟨.registered "c" "u" 0, []⟩,
           ⟨.failed .userAlreadyInChannel, ["ERROR"]⟩]⟩ := by
  constructor
  · intro s tid h chan user e gr hh hph hlk hgr
    constructor
    · intro hu
      simp only [step, hh, hph, hlk, if_pos hu]
    · intro hu
      simp only [step, hh, hph, hlk, if_neg hu, hgr]
  · decide

/-- **C5: witness.** Both branches at a concrete state: the taken username
`u` is rejected with one `ERROR`, the fresh username `v` is appended. -/
theorem C5_username_uniqueness_witness :
    (step ⟨[("c", ⟨["u"], 0⟩)], [⟨0, 2, []⟩], [⟨.parsed "c" "u", []⟩]⟩ (.registryJoin 0)
      = some ⟨[("c", ⟨["u"], 0⟩)], [⟨0, 2, []⟩],
          [(⟨.parsed "c" "u", []⟩ : HandlerState)].set 0
            ⟨.failed .userAlreadyInChannel, [] ++ ["ERROR"]⟩⟩)
    ∧ (step ⟨[("c", ⟨["u"], 0⟩)], [⟨0, 2, []⟩], [⟨.parsed "c" "v", []⟩]⟩ (.registryJoin 0)
      = some ⟨addUser [("c", ⟨["u"], 0⟩)] "c" "v",
          [(⟨0, 2, []⟩ : GroupState)].set 0 ⟨0, 2 + 1, []⟩,
          [(⟨.parsed "c" "v", []⟩ : HandlerState)].set 0
            ⟨.registered "c" "v" 0, []⟩⟩) := by
  constructor
  · exact (C5_username_uniqueness.1 _ 0 ⟨.parsed "c" "u", []⟩ "c" "u" ⟨["u"], 0⟩
      ⟨0, 2, []⟩ (by decide) rfl (by decide) (by decide)).1 (by decide)
  · exact (C5_username_uniqueness.1 _ 0 ⟨.parsed "c" "v", []⟩ "c" "v" ⟨["u"], 0⟩
      ⟨0, 2, []⟩ (by decide) rfl (by decide) (by decide)).2 (by decide)

/-- A small reachable state used to instantiate theorems: one client has
joined channel `c` as `u` and its join announcement is in the log. -/
def wJoined : ServerState :=
  ⟨[("c", ⟨["u"], 0⟩)], [⟨1, 2, ["u has joined"]⟩], [⟨.joined "c" "u" 0 0, []⟩]⟩

theorem wJoined_reachable : Reachable wJoined :=
  ⟨1, [.deliverJoinLine 0 "JOIN c u", .registryJoin 0, .subscribe 0, .announceJoin 0],
    by decide⟩

/-- **C6.** The handler subscribes before publishing and drops its
subscription only after the departure announcement, so every publish it
performs happens with its own subscription live: (1) from `registered`,
the `subscribe`–announce sequence always succeeds, the announcement lands
at exactly the subscription's cursor (visible to the announcing
connection); (2) in every reachable state a `joined` handler's group has at
least one receiver and one sender, the `RecvError::Closed` /
`unreachable!` event is not enabled, and publishing a client line cannot
fail; (3) likewise the departure publish from `disconnected` cannot
fail. -/
theorem C6_publish_safety :
    (∀ (s : ServerState) (tid : Nat) (h : HandlerState) (chan user : String) (g : Nat)
        (gr : GroupState),
      s.handlers[tid]? = some h → h.phase = .registered chan user g →
      s.groups[g]? = some gr →
      run s [.subscribe tid, .announceJoin tid] = some
        { s with
          groups :=
            s.groups.set g
              { gr with receivers := gr.receivers + 1, log := gr.log ++ [user ++ " has joined"] },
          handlers :=
            s.handlers.set tid { h with phase := .joined chan user g gr.log.length } }
      ∧ (gr.log ++ [user ++ " has joined"])[gr.log.length]? = some (user ++ " has joined"))
    ∧ (∀ s : ServerState, Reachable s →
      ∀ (tid : Nat) (h : HandlerState) (chan user : String) (g pos : Nat),
      s.handlers[tid]? = some h → h.phase = .joined chan user g pos →
      ∃ gr, s.groups[g]? = some gr ∧ 1 ≤ gr.receivers ∧ 1 ≤ gr.senders ∧
        step s (.recvClosed tid) = none ∧
        (∀ line, step s (.clientLine tid line) = some
          { s with groups :=
              s.groups.set g { gr with log := gr.log ++ [user ++ ": " ++ line] } }))
    ∧ (∀ s : ServerState, Reachable s →
      ∀ (tid : Nat) (h : HandlerState) (chan user : String) (g pos : Nat),
      s.handlers[tid]? = some h → h.phase = .disconnected chan user g pos →
      ∃ gr, s.groups[g]? = some gr ∧ 1 ≤ gr.receivers ∧
        step s (.publishLeft tid) = some
          { s with
            groups := s.groups.set g { gr with log := gr.log ++ [user ++ " has left"] },
            handlers := s.handlers.set tid
              { h with phase := .leftAnnounced chan user g pos } }) := by
  refine ⟨?_, ?_, ?_⟩
  · intro s tid h chan user g gr hh hph hgr
    have hstep1 : step s (.subscribe tid) = some
        { s with
          groups := s.groups.set g { gr with receivers := gr.receivers + 1 },
          handlers := s.handlers.set tid
            { h with phase := .subscribed chan user g gr.log.length } } := by
      simp only [step, hh, hph, hgr]
    have hh2 : ({ s with
          groups := s.groups.set g { gr with receivers := gr.receivers + 1 },
          handlers := s.handlers.set tid
            { h with phase := .subscribed chan user g gr.log.length } }
          : ServerState).handlers[tid]?
        = some { h with phase := .subscribed chan user g gr.log.length } := by
      dsimp only
      exact getElem?_set_same _ _ _ _ hh
    have hg2 : ({ s with
          groups := s.groups.set g { gr with receivers := gr.receivers + 1 },
          handlers := s.handlers.set tid
            { h with phase := .subscribed chan user g gr.log.length } }
          : ServerState).groups[g]?
        = some { gr with receivers := gr.receivers + 1 } := by
      dsimp only
      exact getElem?_set_same _ _ _ _ hgr
    constructor
    · have hstep2 : step { s with
          groups := s.groups.set g { gr with receivers := gr.receivers + 1 },
          handlers := s.handlers.set tid
            { h with phase := .subscribed chan user g gr.log.length } }
          (.announceJoin tid) = some
          { s with
            groups :=
              s.groups.set g
                { gr with receivers := gr.receivers + 1, log := gr.log ++ [user ++ " has joined"] },
            handlers :=
              s.handlers.set tid { h with phase := .joined chan user g gr.log.length } } := by
        simp only [step, hh2, hg2]
        simp only [Nat.succ_ne_zero, if_false]
        rw [List.set_set, List.set_set]
      simp only [run, hstep1, hstep2]
    · simp
  · intro s hs tid h chan user g pos hh hph
    obtain ⟨hcounts, hgid, hreg⟩ := reachable_inv hs
    have hgb : g < s.groups.length :=
      hgid h (List.getElem?_mem hh) g (by simp [hph, holdsTx])
    have hgr : s.groups[g]? = some s.groups[g] := List.getElem?_eq_getElem hgb
    have hc := hcounts g _ hgr
    have hrx1 : 1 ≤ countRx s.handlers g :=
      countRx_one_le s.handlers tid h g hh (by simp [hph, holdsRx])
    have htx1 : 1 ≤ countTx s.handlers g :=
      countTx_one_le s.handlers tid h g hh (by simp [hph, holdsTx])
    refine ⟨s.groups[g], hgr, by omega, by omega, ?_, ?_⟩
    · simp only [step, hh, hph, hgr]
      have hz : ¬(s.groups[g].senders = 0) := by omega
      rw [if_neg hz]
    · intro line
      simp only [step, hh, hph, hgr]
      have hz : ¬(s.groups[g].receivers = 0) := by omega
      rw [if_neg hz]
  · intro s hs tid h chan user g pos hh hph
    obtain ⟨hcounts, hgid, hreg⟩ := reachable_inv hs
    have hgb : g < s.groups.length :=
      hgid h (List.getElem?_mem hh) g (by simp [hph, holdsTx])
    have hgr : s.groups[g]? = some s.groups[g] := List.getElem?_eq_getElem hgb
    have hc := hcounts g _ hgr
    have hrx1 : 1 ≤ countRx s.handlers g :=
      countRx_one_le s.handlers tid h g hh (by simp [hph, holdsRx])
    refine ⟨s.groups[g], hgr, by omega, ?_⟩
    simp only [step, hh, hph, hgr]
    have hz : ¬(s.groups[g].receivers = 0) := by omega
    rw [if_neg hz]

/-- **C6: witness.** At the concrete reachable one-member state, the
`joined` handler's group has a live receiver and sender, `recvClosed` is
disabled and client lines publish successfully. -/
theorem C6_publish_safety_witness :
    ∃ gr, wJoined.groups[0]? = some gr ∧ 1 ≤ gr.receivers ∧ 1 ≤ gr.senders ∧
      step wJoined (.recvClosed 0) = none ∧
      (∀ line, step wJoined (.clientLine 0 line) = some
        { wJoined with groups :=
            wJoined.groups.set 0 { gr with log := gr.log ++ ["u" ++ ": " ++ line] } }) :=
  C6_publish_safety.2.1 wJoined wJoined_reachable 0 ⟨.joined "c" "u" 0 0, []⟩
    "c" "u" 0 0 (by decide) rfl

/-- A backlog of 1001 pending messages. -/
def wLog : List String := List.replicate 1001 "m"

theorem wLog_length : wLog.length = 1001 := by
  rw [wLog, List.length_replicate]

/-- A `joined` handler whose group log holds 1001 messages while its cursor
is still at 0: its backlog exceeds `MAX_MESSAGES`, so its next receive
reports lag. -/
def wLagged : ServerState :=
  ⟨[("c", ⟨["u"], 0⟩)], [⟨1, 2, wLog⟩], [⟨.joined "c" "u" 0 0, []⟩]⟩

/-- **C7.** In the `Joined` relay loop: a transport-level read error leaves
the whole server state unchanged and the loop running; a failure to forward
a group message to the transport terminates the handler with `SendMessage`
(dropping its handles); and a lag notification, when the transport accepts
the write, sends exactly one generic `ERROR` line and continues in `joined`
(cursor advanced past the lost backlog) — backlog loss itself never
terminates the connection. -/
theorem C7_joined_event_handling
    (s : ServerState) (tid : Nat) (h : HandlerState) (chan user : String) (g pos : Nat)
    (gr : GroupState)
    (hh : s.handlers[tid]? = some h) (hph : h.phase = .joined chan user g pos)
    (hgr : s.groups[g]? = some gr) :
    (step s (.readError tid) = some s)
    ∧ (∀ msg, gr.log[pos]? = some msg → gr.log.length - pos ≤ MAX_MESSAGES →
        step s (.recvForward tid false) = some
          { s with
            groups :=
              s.groups.set g
                { gr with receivers := gr.receivers - 1, senders := gr.senders - 1 },
            handlers := s.handlers.set tid { h with phase := .failed .sendMessage } })
    ∧ (MAX_MESSAGES < gr.log.length - pos →
        step s (.recvLagged tid true) = some
          { s with handlers :=
              s.handlers.set tid ⟨.joined chan user g (gr.log.length - MAX_MESSAGES), h.sent ++ ["ERROR"]⟩ }) := by
  refine ⟨?_, ?_, ?_⟩
  · simp only [step, hh, hph]
  · intro msg hmsg hlen
    simp only [step, hh, hph, hgr, hmsg, if_pos hlen]
    rw [if_neg (by simp)]
  · intro hlen
    simp only [step, hh, hph, hgr, if_pos hlen, if_pos rfl, if_true]

set_option maxRecDepth 10000 in
/-- **C7: witness.** At the lagged state `wLagged`: a read error changes
nothing, and the lag notification sends one `ERROR` and continues. -/
theorem C7_joined_event_handling_witness :
    (step wLagged (.readError 0) = some wLagged)
    ∧ step wLagged (.recvLagged 0 true) = some
        { wLagged with handlers :=
            wLagged.handlers.set 0 ⟨.joined "c" "u" 0 (wLog.length - MAX_MESSAGES), [] ++ ["ERROR"]⟩ } := by
  have happ := C7_joined_event_handling wLagged 0 ⟨.joined "c" "u" 0 0, []⟩
    "c" "u" 0 0 ⟨1, 2, wLog⟩ rfl rfl rfl
  refine ⟨happ.1, happ.2.2 ?_⟩
  show MAX_MESSAGES < wLog.length - 0
  rw [wLog_length]
  decide

/-- **C8.** After a successful join, every line received from the client —
`line` is universally quantified, so in particular a line spelling a `JOIN`
command — is published to the group as exactly `"<username>: <line>"`, and
every message the subscription delivers is forwarded verbatim, unchanged,
to the client's transport (it is appended as-is to the `sent` trace). -/
theorem C8_relay
    (s : ServerState) (tid : Nat) (h : HandlerState) (chan user : String) (g pos : Nat)
    (gr : GroupState)
    (hh : s.handlers[tid]? = some h) (hph : h.phase = .joined chan user g pos)
    (hgr : s.groups[g]? = some gr) :
    (0 < gr.receivers → ∀ line, step s (.clientLine tid line) = some
      { s with groups :=
          s.groups.set g { gr with log := gr.log ++ [user ++ ": " ++ line] } })
    ∧ (∀ msg, gr.log[pos]? = some msg → gr.log.length - pos ≤ MAX_MESSAGES →
        step s (.recvForward tid true) = some
          { s with handlers :=
              s.handlers.set tid ⟨.joined chan user g (pos + 1), h.sent ++ [msg]⟩ }) := by
  constructor
  · intro hr line
    simp only [step, hh, hph, hgr]
    rw [if_neg (by omega)]
  · intro msg hmsg hlen
    simp only [step, hh, hph, hgr, hmsg, if_pos hlen, if_pos rfl, if_true]

/-- **C8: witness.** At the one-member joined state: the client line
`JOIN d v` is relayed as the chat message `u: JOIN d v`, and the pending
announcement is forwarded verbatim. -/
theorem C8_relay_witness :
    (step wJoined (.clientLine 0 "JOIN d v") = some
      { wJoined with groups :=
          wJoined.groups.set 0 ⟨1, 2, ["u has joined"] ++ ["u" ++ ": " ++ "JOIN d v"]⟩ })
    ∧ step wJoined (.recvForward 0 true) = some
        { wJoined with handlers :=
            wJoined.handlers.set 0 ⟨.joined "c" "u" 0 (0 + 1), [] ++ ["u has joined"]⟩ } := by
  have happ := C8_relay wJoined 0 ⟨.joined "c" "u" 0 0, []⟩ "c" "u" 0 0
    ⟨1, 2, ["u has joined"]⟩ rfl rfl rfl
  exact ⟨happ.1 (by decide) "JOIN d v", happ.2 "u has joined" rfl (by decide)⟩

theorem run_cons_some {s s1 : ServerState} {a : Action} {acts : List Action}
    (hstep : step s a = some s1) : run s (a :: acts) = run s1 acts := by
  simp [run, hstep]

/-- The three departure steps shared by every leave path: publish
`"<user> has left"`, drop the subscription, read the receiver count. -/
theorem departureSteps (s : ServerState) (tid : Nat) (h : HandlerState)
    (chan user : String) (g pos : Nat) (gr : GroupState)
    (hh : s.handlers[tid]? = some h) (hph : h.phase = .disconnected chan user g pos)
    (hgr : s.groups[g]? = some gr) (hrecv : 1 ≤ gr.receivers) (acts : List Action) :
    run s (.publishLeft tid :: .dropRx tid :: .checkCount tid :: acts)
      = run { s with
          groups :=
            s.groups.set g
              { gr with receivers := gr.receivers - 1, log := gr.log ++ [user ++ " has left"] },
          handlers :=
            s.handlers.set tid { h with phase := .checkedCount chan user g (gr.receivers - 1) } }
        acts := by
  have hstep1 : step s (.publishLeft tid) = some
      { s with
        groups := s.groups.set g { gr with log := gr.log ++ [user ++ " has left"] },
        handlers := s.handlers.set tid { h with phase := .leftAnnounced chan user g pos } } := by
    simp only [step, hh, hph, hgr]
    rw [if_neg (by omega)]
  have hh1 : ({ s with
        groups := s.groups.set g { gr with log := gr.log ++ [user ++ " has left"] },
        handlers := s.handlers.set tid { h with phase := .leftAnnounced chan user g pos } }
        : ServerState).handlers[tid]?
      = some { h with phase := .leftAnnounced chan user g pos } :=
    getElem?_set_same _ _ _ _ hh
  have hg1 : ({ s with
        groups := s.groups.set g { gr with log := gr.log ++ [user ++ " has left"] },
        handlers := s.handlers.set tid { h with phase := .leftAnnounced chan user g pos } }
        : ServerState).groups[g]?
      = some { gr with log := gr.log ++ [user ++ " has left"] } :=
    getElem?_set_same _ _ _ _ hgr
  have hstep2 : step { s with
        groups := s.groups.set g { gr with log := gr.log ++ [user ++ " has left"] },
        handlers := s.handlers.set tid { h with phase := .leftAnnounced chan user g pos } }
      (.dropRx tid) = some
      { s with
        groups :=
          s.groups.set g
            { gr with receivers := gr.receivers - 1, log := gr.log ++ [user ++ " has left"] },
        handlers := s.handlers.set tid { h with phase := .droppedRx chan user g } } := by
    simp only [step, hh1, hg1]
    rw [List.set_set, List.set_set]
  have hh2 : ({ s with
        groups :=
          s.groups.set g
            { gr with receivers := gr.receivers - 1, log := gr.log ++ [user ++ " has left"] },
        handlers := s.handlers.set tid { h with phase := .droppedRx chan user g } }
        : ServerState).handlers[tid]?
      = some { h with phase := .droppedRx chan user g } :=
    getElem?_set_same _ _ _ _ hh
  have hg2 : ({ s with
        groups :=
          s.groups.set g
            { gr with receivers := gr.receivers - 1, log := gr.log ++ [user ++ " has left"] },
        handlers := s.handlers.set tid { h with phase := .droppedRx chan user g } }
        : ServerState).groups[g]?
      = some { gr with receivers := gr.receivers - 1, log := gr.log ++ [user ++ " has left"] } :=
    getElem?_set_same _ _ _ _ hgr
  have hstep3 : step { s with
        groups :=
          s.groups.set g
            { gr with receivers := gr.receivers - 1, log := gr.log ++ [user ++ " has left"] },
        handlers := s.handlers.set tid { h with phase := .droppedRx chan user g } }
      (.checkCount tid) = some
      { s with
        groups :=
          s.groups.set g
            { gr with receivers := gr.receivers - 1, log := gr.log ++ [user ++ " has left"] },
        handlers :=
          s.handlers.set tid { h with phase := .checkedCount chan user g (gr.receivers - 1) } } := by
    simp only [step, hh2, hg2]
    rw [List.set_set]
  rw [run_cons_some hstep1, run_cons_some hstep2, run_cons_some hstep3]

/-- `finish` when the observed count is non-zero: the channel entry stays,
only the handler's cloned sender is dropped. -/
theorem finish_keep (s : ServerState) (tid : Nat) (h : HandlerState)
    (chan user : String) (g cnt : Nat) (gr : GroupState)
    (hh : s.handlers[tid]? = some h) (hph : h.phase = .checkedCount chan user g cnt)
    (hgr : s.groups[g]? = some gr) (hcnt : ¬cnt = 0) :
    step s (.finish tid) = some
      { s with
        groups := s.groups.set g { gr with senders := gr.senders - 1 },
        handlers := s.handlers.set tid { h with phase := .closed } } := by
  simp only [step, hh, hph, hgr]
  rw [if_neg hcnt]

/-- `finish` with observed count zero but the name absent from the
registry (removed meanwhile): `HashMap::remove` is a no-op. -/
theorem finish_remove_absent (s : ServerState) (tid : Nat) (h : HandlerState)
    (chan user : String) (g cnt : Nat) (gr : GroupState)
    (hh : s.handlers[tid]? = some h) (hph : h.phase = .checkedCount chan user g cnt)
    (hgr : s.groups[g]? = some gr) (hcnt : cnt = 0)
    (hlk : lookupChan s.registry chan = none) :
    step s (.finish tid) = some
      { s with
        groups := s.groups.set g { gr with senders := gr.senders - 1 },
        handlers := s.handlers.set tid { h with phase := .closed } } := by
  simp only [step, hh, hph, hgr, if_pos hcnt, hlk]

/-- `finish` with observed count zero, removing the entry, whose group is
the handler's own. -/
theorem finish_remove_same (s : ServerState) (tid : Nat) (h : HandlerState)
    (chan user : String) (g cnt : Nat) (gr : GroupState) (e : ChannelEntry)
    (hh : s.handlers[tid]? = some h) (hph : h.phase = .checkedCount chan user g cnt)
    (hgr : s.groups[g]? = some gr) (hcnt : cnt = 0)
    (hlk : lookupChan s.registry chan = some e) (heg : e.gid = g) :
    step s (.finish tid) = some
      ⟨removeChan s.registry chan,
       s.groups.set g { gr with senders := gr.senders - 2 },
       s.handlers.set tid { h with phase := .closed }⟩ := by
  simp only [step, hh, hph, hgr, if_pos hcnt, hlk, heg, if_pos rfl, if_true]

/-- `finish` with observed count zero, removing an entry whose group is a
*different* one (the name was removed and recreated meanwhile): both the
handler's sender and the removed entry's sender are dropped. -/
theorem finish_remove_other (s : ServerState) (tid : Nat) (h : HandlerState)
    (chan user : String) (g cnt : Nat) (gr ge : GroupState) (e : ChannelEntry)
    (hh : s.handlers[tid]? = some h) (hph : h.phase = .checkedCount chan user g cnt)
    (hgr : s.groups[g]? = some gr) (hge : s.groups[e.gid]? = some ge) (hcnt : cnt = 0)
    (hlk : lookupChan s.registry chan = some e) (heg : ¬e.gid = g) :
    step s (.finish tid) = some
      ⟨removeChan s.registry chan,
       (s.groups.set g { gr with senders := gr.senders - 1 }).set e.gid
         { ge with senders := ge.senders - 1 },
       s.handlers.set tid { h with phase := .closed }⟩ := by
  simp only [step, hh, hph, hgr, if_pos hcnt, hlk, hge, if_neg heg]

/-- **C9.** When the stream of a joined client ends: the handler publishes
`"<user> has left"` exactly once, then drops its subscription, then removes
the channel from the registry iff the subscriber count it observes at that
point is zero (for the departure run this count is the group's receiver
count minus the departing subscription); and a later join naming the same
channel after a removal creates a fresh channel: new entry, roster
containing only the new user, fresh empty group. -/
theorem C9_departure_cleanup :
    (∀ s : ServerState, Reachable s →
      ∀ (tid : Nat) (h : HandlerState) (chan user : String) (g pos : Nat),
      s.handlers[tid]? = some h → h.phase = .disconnected chan user g pos →
      ∃ s' gr, s.groups[g]? = some gr ∧
        run s [.publishLeft tid, .dropRx tid, .checkCount tid, .finish tid] = some s' ∧
        (∃ gr', s'.groups[g]? = some gr' ∧
          gr'.log = gr.log ++ [user ++ " has left"] ∧
          gr'.receivers = gr.receivers - 1) ∧
        (gr.receivers = 1 → s'.registry = removeChan s.registry chan) ∧
        (2 ≤ gr.receivers → s'.registry = s.registry))
    ∧ (∀ (t : ServerState) (tid2 : Nat) (h2 : HandlerState) (chan user2 : String),
        t.handlers[tid2]? = some h2 → h2.phase = .parsed chan user2 →
        lookupChan t.registry chan = none →
        step t (.registryJoin tid2) = some
          ⟨(chan, ⟨[user2], t.groups.length⟩) :: t.registry,
           t.groups ++ [⟨0, 2, []⟩],
           t.handlers.set tid2 { h2 with phase := .registered chan user2 t.groups.length }⟩) := by
  constructor
  · intro s hs tid h chan user g pos hh hph
    obtain ⟨hcounts, hgid, hreg⟩ := reachable_inv hs
    have hgb : g < s.groups.length :=
      hgid h (List.getElem?_mem hh) g (by simp [hph, holdsTx])
    obtain ⟨gr, hgr⟩ : ∃ gr, s.groups[g]? = some gr := ⟨_, List.getElem?_eq_getElem hgb⟩
    have hc := hcounts g gr hgr
    have hrx1 : 1 ≤ countRx s.handlers g :=
      countRx_one_le s.handlers tid h g hh (by simp [hph, holdsRx])
    have hrecv : 1 ≤ gr.receivers := by omega
    have hpre := departureSteps s tid h chan user g pos gr hh hph hgr hrecv [.finish tid]
    have hh3 : ({ s with
          groups :=
            s.groups.set g
              { gr with receivers := gr.receivers - 1, log := gr.log ++ [user ++ " has left"] },
          handlers :=
            s.handlers.set tid { h with phase := .checkedCount chan user g (gr.receivers - 1) } } : ServerState).handlers[tid]? = some { h with phase := .checkedCount chan user g (gr.receivers - 1) } :=
      getElem?_set_same _ _ _ _ hh
    have hg3 : ({ s with
          groups :=
            s.groups.set g
              { gr with receivers := gr.receivers - 1, log := gr.log ++ [user ++ " has left"] },
          handlers :=
            s.handlers.set tid { h with phase := .checkedCount chan user g (gr.receivers - 1) } } : ServerState).groups[g]? = some { gr with receivers := gr.receivers - 1, log := gr.log ++ [user ++ " has left"] } :=
      getElem?_set_same _ _ _ _ hgr
    by_cases hone : gr.receivers = 1
    · have hcnt : gr.receivers - 1 = 0 := by omega
      cases hlk : lookupChan s.registry chan with
      | none =>
        have hstep4 := finish_remove_absent { s with
          groups :=
            s.groups.set g
              { gr with receivers := gr.receivers - 1, log := gr.log ++ [user ++ " has left"] },
          handlers :=
            s.handlers.set tid { h with phase := .checkedCount chan user g (gr.receivers - 1) } } tid { h with phase := .checkedCount chan user g (gr.receivers - 1) }
          chan user g (gr.receivers - 1) { gr with receivers := gr.receivers - 1, log := gr.log ++ [user ++ " has left"] } hh3 rfl hg3 hcnt hlk
        refine ⟨(⟨s.registry,
        (s.groups.set g { gr with receivers := gr.receivers - 1, log := gr.log ++ [user ++ " has left"] }).set g { { gr with receivers := gr.receivers - 1, log := gr.log ++ [user ++ " has left"] } with senders := ({ gr with receivers := gr.receivers - 1, log := gr.log ++ [user ++ " has left"] } : GroupState).senders - 1 },
        (s.handlers.set tid { h with phase := .checkedCount chan user g (gr.receivers - 1) }).set tid ⟨.closed, h.sent⟩⟩ : ServerState), gr, hgr, ?_, ?_, ?_, ?_⟩
        · rw [hpre, run_cons_some hstep4]
          rfl
        · refine ⟨{ { gr with receivers := gr.receivers - 1, log := gr.log ++ [user ++ " has left"] } with senders := ({ gr with receivers := gr.receivers - 1, log := gr.log ++ [user ++ " has left"] } : GroupState).senders - 1 }, ?_, rfl, rfl⟩
          dsimp only
          rw [List.set_set]
          exact getElem?_set_same _ _ _ _ hgr
        · intro _
          dsimp only
          rw [removeChan_of_lookup_none s.registry chan hlk]
        · intro hcontra
          omega
      | some e =>
        by_cases heg : e.gid = g
        · have hstep4 := finish_remove_same { s with
          groups :=
            s.groups.set g
              { gr with receivers := gr.receivers - 1, log := gr.log ++ [user ++ " has left"] },
          handlers :=
            s.handlers.set tid { h with phase := .checkedCount chan user g (gr.receivers - 1) } } tid { h with phase := .checkedCount chan user g (gr.receivers - 1) }
            chan user g (gr.receivers - 1) { gr with receivers := gr.receivers - 1, log := gr.log ++ [user ++ " has left"] } e hh3 rfl hg3 hcnt hlk heg
          refine ⟨(⟨removeChan s.registry chan,
        (s.groups.set g { gr with receivers := gr.receivers - 1, log := gr.log ++ [user ++ " has left"] }).set g { { gr with receivers := gr.receivers - 1, log := gr.log ++ [user ++ " has left"] } with senders := ({ gr with receivers := gr.receivers - 1, log := gr.log ++ [user ++ " has left"] } : GroupState).senders - 2 },
        (s.handlers.set tid { h with phase := .checkedCount chan user g (gr.receivers - 1) }).set tid ⟨.closed, h.sent⟩⟩ : ServerState), gr, hgr, ?_, ?_, ?_, ?_⟩
          · rw [hpre, run_cons_some hstep4]
            rfl
          · refine ⟨{ { gr with receivers := gr.receivers - 1, log := gr.log ++ [user ++ " has left"] } with senders := ({ gr with receivers := gr.receivers - 1, log := gr.log ++ [user ++ " has left"] } : GroupState).senders - 2 }, ?_, rfl, rfl⟩
            dsimp only
            rw [List.set_set]
            exact getElem?_set_same _ _ _ _ hgr
          · intro _
            rfl
          · intro hcontra
            omega
        · have hgeb : e.gid < s.groups.length := by
            have := hreg (chan, e) (lookupChan_mem hlk)
            dsimp only at this
            exact this
          have hge3 : ({ s with
          groups :=
            s.groups.set g
              { gr with receivers := gr.receivers - 1, log := gr.log ++ [user ++ " has left"] },
          handlers :=
            s.handlers.set tid { h with phase := .checkedCount chan user g (gr.receivers - 1) } } : ServerState).groups[e.gid]? = some s.groups[e.gid] := by
            dsimp only
            rw [List.getElem?_set_ne (fun hc => heg hc.symm)]
            exact List.getElem?_eq_getElem hgeb
          have hstep4 := finish_remove_other { s with
          groups :=
            s.groups.set g
              { gr with receivers := gr.receivers - 1, log := gr.log ++ [user ++ " has left"] },
          handlers :=
            s.handlers.set tid { h with phase := .checkedCount chan user g (gr.receivers - 1) } } tid { h with phase := .checkedCount chan user g (gr.receivers - 1) }
            chan user g (gr.receivers - 1) { gr with receivers := gr.receivers - 1, log := gr.log ++ [user ++ " has left"] } s.groups[e.gid] e
            hh3 rfl hg3 hge3 hcnt hlk heg
          refine ⟨(⟨removeChan s.registry chan,
        ((s.groups.set g { gr with receivers := gr.receivers - 1, log := gr.log ++ [user ++ " has left"] }).set g { { gr with receivers := gr.receivers - 1, log := gr.log ++ [user ++ " has left"] } with senders := ({ gr with receivers := gr.receivers - 1, log := gr.log ++ [user ++ " has left"] } : GroupState).senders - 1 }).set e.gid { s.groups[e.gid] with senders := s.groups[e.gid].senders - 1 },
        (s.handlers.set tid { h with phase := .checkedCount chan user g (gr.receivers - 1) }).set tid ⟨.closed, h.sent⟩⟩ : ServerState), gr, hgr, ?_, ?_, ?_, ?_⟩
          · rw [hpre, run_cons_some hstep4]
            rfl
          · refine ⟨{ { gr with receivers := gr.receivers - 1, log := gr.log ++ [user ++ " has left"] } with senders := ({ gr with receivers := gr.receivers - 1, log := gr.log ++ [user ++ " has left"] } : GroupState).senders - 1 }, ?_, rfl, rfl⟩
            dsimp only
            rw [List.getElem?_set_ne heg, List.set_set]
            exact getElem?_set_same _ _ _ _ hgr
          · intro _
            rfl
          · intro hcontra
            omega
    · have hcnt : ¬(gr.receivers - 1 = 0) := by omega
      have hstep4 := finish_keep { s with
          groups :=
            s.groups.set g
              { gr with receivers := gr.receivers - 1, log := gr.log ++ [user ++ " has left"] },
          handlers :=
            s.handlers.set tid { h with phase := .checkedCount chan user g (gr.receivers - 1) } } tid { h with phase := .checkedCount chan user g (gr.receivers - 1) }
        chan user g (gr.receivers - 1) { gr with receivers := gr.receivers - 1, log := gr.log ++ [user ++ " has left"] } hh3 rfl hg3 hcnt
      refine ⟨(⟨s.registry,
        (s.groups.set g { gr with receivers := gr.receivers - 1, log := gr.log ++ [user ++ " has left"] }).set g { { gr with receivers := gr.receivers - 1, log := gr.log ++ [user ++ " has left"] } with senders := ({ gr with receivers := gr.receivers - 1, log := gr.log ++ [user ++ " has left"] } : GroupState).senders - 1 },
        (s.handlers.set tid { h with phase := .checkedCount chan user g (gr.receivers - 1) }).set tid ⟨.closed, h.sent⟩⟩ : ServerState), gr, hgr, ?_, ?_, ?_, ?_⟩
      · rw [hpre, run_cons_some hstep4]
        rfl
      · refine ⟨{ { gr with receivers := gr.receivers - 1, log := gr.log ++ [user ++ " has left"] } with senders := ({ gr with receivers := gr.receivers - 1, log := gr.log ++ [user ++ " has left"] } : GroupState).senders - 1 }, ?_, rfl, rfl⟩
        dsimp only
        rw [List.set_set]
        exact getElem?_set_same _ _ _ _ hgr
      · intro hcontra
        exact absurd hcontra hone
      · intro _
        rfl
  · intro t tid2 h2 chan user2 hh2 hph2 hlk2
    simp only [step, hh2, hph2, hlk2]

/-- **C9: witness.** A single member of channel `c` disconnects: the
departure announcement is logged once, the subscription count drops to
zero, and the channel is removed; the registry of the final state is
exactly `removeChan` of the original. -/
theorem C9_departure_cleanup_witness :
    step ⟨[], [], [⟨.parsed "c" "v", []⟩]⟩ (.registryJoin 0) = some
      ⟨[("c", ⟨["v"], 0⟩)], [⟨0, 2, []⟩],
       [(⟨.parsed "c" "v", []⟩ : HandlerState)].set 0
         ⟨.registered "c" "v" 0, []⟩⟩ :=
  C9_departure_cleanup.2 ⟨[], [], [⟨.parsed "c" "v", []⟩]⟩ 0
    ⟨.parsed "c" "v", []⟩ "c" "v" rfl rfl rfl

/-- Every atomic step changes the registry in one of four ways: not at
all, one roster extended by one user, one fresh singleton-roster entry
inserted, or one entry removed whole. -/
theorem step_registry_cases {t t' : ServerState} {a : Action} (hstep : step t a = some t') :
    t'.registry = t.registry
    ∨ (∃ c u, t'.registry = addUser t.registry c u)
    ∨ (∃ c u gid, t'.registry = (c, ⟨[u], gid⟩) :: t.registry)
    ∨ (∃ c, t'.registry = removeChan t.registry c) := by
  cases a <;>
    (simp only [step] at hstep
     repeat' split at hstep) <;>
    first
      | exact Option.noConfusion hstep
      | (obtain rfl := Option.some.inj hstep
         first
           | exact Or.inl rfl
           | exact Or.inr (Or.inl ⟨_, _, rfl⟩)
           | exact Or.inr (Or.inr (Or.inl ⟨_, _, _, rfl⟩))
           | exact Or.inr (Or.inr (Or.inr ⟨_, rfl⟩)))

/-- A username is never removed from a roster individually: every entry
after a step either existed before, is an old entry with one username
appended, or is a fresh entry with a one-element roster. -/
theorem step_registry_shape {t t' : ServerState} {a : Action} (hstep : step t a = some t') :
    ∀ p ∈ t'.registry, p ∈ t.registry
      ∨ (∃ e2 u2, (p.1, e2) ∈ t.registry ∧ p.2 = ⟨e2.users ++ [u2], e2.gid⟩)
      ∨ (∃ u2, p.2.users = [u2]) := by
  intro p hp
  rcases step_registry_cases hstep with hr | ⟨c, u, hr⟩ | ⟨c, u, gid, hr⟩ | ⟨c, hr⟩
  · rw [hr] at hp
    left
    exact hp
  · rw [hr] at hp
    rcases mem_addUser hp with h1 | ⟨e2, he2, rfl⟩
    · left
      exact h1
    · right
      left
      exact ⟨e2, u, he2, rfl⟩
  · rw [hr] at hp
    rcases List.mem_cons.mp hp with h1 | h1
    · right
      right
      exact ⟨u, by rw [h1]⟩
    · left
      exact h1
  · rw [hr] at hp
    left
    exact mem_removeChan hp

/-- **C10.** Departure of a user from a channel that still has other live
subscribers leaves the registry — including the departing user's roster
entry — entirely unchanged, so a new connection joining that channel with
the departed username fails with `ERROR` and `UserAlreadyInChannel`; and in
general no step ever removes a username from a roster individually, only a
whole channel entry. -/
theorem C10_departure_frame :
    (∀ (s : ServerState) (tid : Nat) (h : HandlerState) (chan user : String)
        (g pos : Nat) (gr : GroupState) (e : ChannelEntry),
      s.handlers[tid]? = some h → h.phase = .disconnected chan user g pos →
      s.groups[g]? = some gr → 2 ≤ gr.receivers →
      lookupChan s.registry chan = some e → user ∈ e.users →
      ∃ s', run s [.publishLeft tid, .dropRx tid, .checkCount tid, .finish tid] = some s' ∧
        s'.registry = s.registry ∧
        lookupChan s'.registry chan = some e ∧
        (∀ (tid2 : Nat) (h2 : HandlerState),
          s'.handlers[tid2]? = some h2 → h2.phase = .parsed chan user →
          step s' (.registryJoin tid2) = some
            ⟨s'.registry, s'.groups,
             s'.handlers.set tid2 ⟨.failed .userAlreadyInChannel, h2.sent ++ ["ERROR"]⟩⟩))
    ∧ (∀ (t t' : ServerState) (a : Action), step t a = some t' →
        ∀ p ∈ t'.registry, p ∈ t.registry
          ∨ (∃ e2 u2, (p.1, e2) ∈ t.registry ∧ p.2 = ⟨e2.users ++ [u2], e2.gid⟩)
          ∨ (∃ u2, p.2.users = [u2])) := by
  constructor
  · intro s tid h chan user g pos gr e hh hph hgr hrecv2 hlk hue
    have hrecv : 1 ≤ gr.receivers := by omega
    have hpre := departureSteps s tid h chan user g pos gr hh hph hgr hrecv [.finish tid]
    have hh3 : ({ s with
          groups :=
            s.groups.set g
              { gr with receivers := gr.receivers - 1, log := gr.log ++ [user ++ " has left"] },
          handlers :=
            s.handlers.set tid { h with phase := .checkedCount chan user g (gr.receivers - 1) } } : ServerState).handlers[tid]? = some { h with phase := .checkedCount chan user g (gr.receivers - 1) } :=
      getElem?_set_same _ _ _ _ hh
    have hg3 : ({ s with
          groups :=
            s.groups.set g
              { gr with receivers := gr.receivers - 1, log := gr.log ++ [user ++ " has left"] },
          handlers :=
            s.handlers.set tid { h with phase := .checkedCount chan user g (gr.receivers - 1) } } : ServerState).groups[g]? = some { gr with receivers := gr.receivers - 1, log := gr.log ++ [user ++ " has left"] } :=
      getElem?_set_same _ _ _ _ hgr
    have hcnt : ¬(gr.receivers - 1 = 0) := by omega
    have hstep4 := finish_keep { s with
          groups :=
            s.groups.set g
              { gr with receivers := gr.receivers - 1, log := gr.log ++ [user ++ " has left"] },
          handlers :=
            s.handlers.set tid { h with phase := .checkedCount chan user g (gr.receivers - 1) } } tid { h with phase := .checkedCount chan user g (gr.receivers - 1) }
      chan user g (gr.receivers - 1) { gr with receivers := gr.receivers - 1, log := gr.log ++ [user ++ " has left"] } hh3 rfl hg3 hcnt
    refine ⟨(⟨s.registry,
        (s.groups.set g { gr with receivers := gr.receivers - 1, log := gr.log ++ [user ++ " has left"] }).set g { { gr with receivers := gr.receivers - 1, log := gr.log ++ [user ++ " has left"] } with senders := ({ gr with receivers := gr.receivers - 1, log := gr.log ++ [user ++ " has left"] } : GroupState).senders - 1 },
        (s.handlers.set tid { h with phase := .checkedCount chan user g (gr.receivers - 1) }).set tid ⟨.closed, h.sent⟩⟩ : ServerState),
      ?_, rfl, hlk, ?_⟩
    · rw [hpre, run_cons_some hstep4]
      rfl
    · intro tid2 h2 hh2 hph2
      simp only [step, hh2, hph2, hlk, if_pos hue]
  · intro t t' a hstep
    exact step_registry_shape hstep

/-- **C10: witness.** `u` departs channel `c` while `v` is still
subscribed: the registry (with `u` still in the roster) is untouched and a
fresh join as `u` is rejected. -/
theorem C10_departure_frame_witness :
    ∃ s', run ⟨[("c", ⟨["u", "v"], 0⟩)], [⟨2, 3, []⟩],
        [⟨.disconnected "c" "u" 0 0, []⟩, ⟨.joined "c" "v" 0 0, []⟩]⟩
        [.publishLeft 0, .dropRx 0, .checkCount 0, .finish 0] = some s' ∧
      s'.registry = [("c", ⟨["u", "v"], 0⟩)] ∧
      lookupChan s'.registry "c" = some ⟨["u", "v"], 0⟩ ∧
      (∀ (tid2 : Nat) (h2 : HandlerState),
        s'.handlers[tid2]? = some h2 → h2.phase = .parsed "c" "u" →
        step s' (.registryJoin tid2) = some
          ⟨s'.registry, s'.groups,
           s'.handlers.set tid2 ⟨.failed .userAlreadyInChannel, h2.sent ++ ["ERROR"]⟩⟩) :=
  C10_departure_frame.1 ⟨[("c", ⟨["u", "v"], 0⟩)], [⟨2, 3, []⟩],
      [⟨.disconnected "c" "u" 0 0, []⟩, ⟨.joined "c" "v" 0 0, []⟩]⟩
    0 ⟨.disconnected "c" "u" 0 0, []⟩ "c" "u" 0 0 ⟨2, 3, []⟩ ⟨["u", "v"], 0⟩
    rfl rfl rfl (by decide) (by decide) (by decide)

end Chat
